import Mathlib

/-!
# IP lookup engine (`src/api/ip/index.js`): a shallow embedding

The module keeps three pieces of mutable state: the per-provider request
counters `apiRequestCounters`, the round-robin cursor `lastUsedApiIndex`
and the response cache `ipCache`.  Every function of the module is embedded
as a Lean function that takes the state and returns the new state next to
its JavaScript return value.

Conventions.

* `Date.now()` is a natural number of milliseconds.  One synchronous run of
  code reads one instant `now`; the clock moves only where the source
  awaits (the upstream HTTP call and the 100 ms back-off timer).
* `config.json` is not part of the sources, so the configuration is a
  parameter `cfg : Config` of every function.
* An exception thrown by the JavaScript code is a value of `JsError`.
* JSON numbers are integers; the prototype members every JavaScript object
  inherits (`constructor`, `toString`, ...) are not modelled.
* `getClientIp` exists twice, in `src/api/ip/index.js` and in `src/index.js`;
  the second one is `Server.getClientIp`.  `config.ip_headers` and the
  request are parameters of both.
-/

namespace IpApi

/-! ## Data model -/

/-- One entry of `config.upstream_apis`. -/
structure Api where
  name : String
  url : String
  enabled : Bool
  max_requests : Int
  time_window : Int
  field_mapping : List (String × String)
  deriving DecidableEq, Repr

/-- The parts of `config.json` that the module reads.  `retry_count` is a
number of retries and `default_timeout` a number of milliseconds: natural
numbers. -/
structure Config where
  upstream_apis : List Api
  load_balance_strategy : Option String
  default_timeout : Nat
  retry_count : Nat
  cache_ttl : Int
  response_fields : List String
  deriving DecidableEq, Repr

/-- One value of `apiRequestCounters`. -/
structure Counter where
  count : Nat
  windowStartTime : Nat
  isAvailable : Bool
  deriving DecidableEq, Repr

/-- A JavaScript value as it comes out of `JSON.parse`, plus `undefined`. -/
inductive Value where
  | undefined : Value
  | null : Value
  | bool : Bool → Value
  | num : Int → Value
  | str : String → Value
  | arr : List Value → Value
  | obj : List (String × Value) → Value

/-- The object `safeQueryIpInfo` resolves to. -/
structure LookupResult where
  source : String
  data : List (String × Value)
  raw_data : Value

/-- One value of the `ipCache` map. -/
structure CacheItem where
  data : LookupResult
  timestamp : Nat

/-- Exceptions: a `TypeError` raised by the runtime, or an `Error` built by
the module with its message and its optional `source` property. -/
inductive JsError where
  | typeError : JsError
  | error (message : String) (source : Option String) : JsError
  deriving DecidableEq, Repr

/-- The mutable module state. -/
structure State where
  apiRequestCounters : String → Option Counter
  lastUsedApiIndex : Int
  ipCache : String → Option CacheItem

/-- Assignment `m[k] = v` on a keyed store. -/
def setKey {α : Type} (m : String → Option α) (k : String) (v : α) : String → Option α :=
  fun k' => if k' = k then some v else m k'

/-- Removal `m.delete(k)` on a keyed store. -/
def delKey {α : Type} (m : String → Option α) (k : String) : String → Option α :=
  fun k' => if k' = k then none else m k'

/-- The expression `config.upstream_apis.find(a => a.name === apiName)`. -/
def findApi (cfg : Config) (apiName : String) : Option Api :=
  cfg.upstream_apis.find? (fun a => decide (a.name = apiName))

/-! ## Rate limiter -/

/-- Source lines 27-36. -/
def resetRequestCounter (cfg : Config) (now : Nat) (s : State) (apiName : String) : State :=
  match findApi cfg apiName with
  | none => s
  | some api =>
    let fresh : Counter := { count := 0, windowStartTime := now, isAvailable := api.enabled }
    { s with apiRequestCounters := setKey s.apiRequestCounters apiName fresh }

/-- The test `now - counter.windowStartTime > api.time_window * 1000`. -/
def windowExpired (api : Api) (c : Counter) (now : Nat) : Bool :=
  decide ((now : Int) - (c.windowStartTime : Int) > api.time_window * 1000)

/-- Source lines 39-54.  Reading `counter.windowStartTime` of a missing
counter is a `TypeError`. -/
def isApiAvailable (cfg : Config) (now : Nat) (s : State) (apiName : String) :
    Except JsError (Bool × State) :=
  match findApi cfg apiName with
  | none => .ok (false, s)
  | some api =>
    if api.enabled = false then .ok (false, s)
    else
      match s.apiRequestCounters apiName with
      | none => .error .typeError
      | some counter =>
        if windowExpired api counter now then
          .ok (true, resetRequestCounter cfg now s apiName)
        else
          .ok (decide ((counter.count : Int) < api.max_requests), s)

/-- The loop of `Array.prototype.filter` with `isApiAvailable` as predicate,
over any list of providers. -/
def filterAvailable (cfg : Config) (now : Nat) :
    State → List Api → Except JsError (List Api × State)
  | s, [] => .ok ([], s)
  | s, api :: rest =>
    match isApiAvailable cfg now s api.name with
    | .error e => .error e
    | .ok (keep, s1) =>
      match filterAvailable cfg now s1 rest with
      | .error e => .error e
      | .ok (kept, s2) => .ok (if keep then api :: kept else kept, s2)

/-- Source lines 57-59. -/
def getAvailableApis (cfg : Config) (now : Nat) (s : State) :
    Except JsError (List Api × State) :=
  filterAvailable cfg now s cfg.upstream_apis

/-- Source lines 98-103.  The log line 102 reads the registry entry of the
provider, which is there whenever `safeQueryIpInfo`, the only caller, gets
this far: `isApiAvailable` has just found it. -/
def incrementApiCounter (s : State) (apiName : String) : State :=
  match s.apiRequestCounters apiName with
  | none => s
  | some c =>
    let bumped : Counter := { c with count := c.count + 1 }
    { s with apiRequestCounters := setKey s.apiRequestCounters apiName bumped }

/-! ## Response cache -/

/-- The test `now - cacheItem.timestamp > config.cache_ttl * 1000`. -/
def cacheExpired (cfg : Config) (item : CacheItem) (now : Nat) : Bool :=
  decide ((now : Int) - (item.timestamp : Int) > cfg.cache_ttl * 1000)

/-- Source lines 133-146; `none` is the JavaScript `null`. -/
def getFromCache (cfg : Config) (now : Nat) (s : State) (ip : String) :
    Option LookupResult × State :=
  match s.ipCache ip with
  | none => (none, s)
  | some cacheItem =>
    if cacheExpired cfg cacheItem now then
      (none, { s with ipCache := delKey s.ipCache ip })
    else
      (some cacheItem.data, s)

/-- Source lines 149-154. -/
def saveToCache (now : Nat) (s : State) (ip : String) (data : LookupResult) : State :=
  let item : CacheItem := { data := data, timestamp := now }
  { s with ipCache := setKey s.ipCache ip item }

/-! ## Selector -/

/-- The expression `config.load_balance_strategy || 'round_robin'`. -/
def strategyOf (cfg : Config) : String :=
  match cfg.load_balance_strategy with
  | none => "round_robin"
  | some t => if t = "" then "round_robin" else t

/-- The element `xs[i]` of an array for an integer `i`; `none` is `undefined`. -/
def elemAt {α : Type} (xs : List α) (i : Int) : Option α :=
  if i < 0 then none else xs.get? i.toNat

/-- The callback of the `reduce` of source lines 83-87. -/
def leastStep (s : State) (least current : Api) : Except JsError Api :=
  match s.apiRequestCounters least.name with
  | none => .error .typeError
  | some leastCounter =>
    match s.apiRequestCounters current.name with
    | none => .error .typeError
    | some currentCounter =>
      .ok (if currentCounter.count < leastCounter.count then current else least)

/-- The `reduce` of source lines 83-87, from the accumulator `least` on. -/
def leastUsed (s : State) : Api → List Api → Except JsError Api
  | least, [] => .ok least
  | least, current :: rest =>
    match leastStep s least current with
    | .error e => .error e
    | .ok next => leastUsed s next rest

/-- Source lines 62-95.  `draw` stands for the outcome of `Math.random()`:
the index picked under `random` is `draw % availableApis.length`. -/
def selectNextApi (cfg : Config) (draw : Nat) (s : State) (availableApis : List Api) :
    Except JsError (Option Api × State) :=
  match availableApis with
  | [] => .ok (none, s)
  | [only] => .ok (some only, s)
  | first :: rest =>
    if strategyOf cfg = "random" then
      .ok (availableApis.get? (draw % availableApis.length), s)
    else if strategyOf cfg = "least_used" then
      match leastUsed s first rest with
      | .error e => .error e
      | .ok least => .ok (some least, s)
    else
      let idx := Int.tmod (s.lastUsedApiIndex + 1) (availableApis.length : Int)
      .ok (elemAt availableApis idx, { s with lastUsedApiIndex := idx })

/-! ## Field mapping -/

/-- JavaScript truthiness of a value. -/
def truthy : Value → Bool
  | .undefined => false
  | .null => false
  | .bool b => b
  | .num n => decide (n ≠ 0)
  | .str t => decide (t ≠ "")
  | .arr _ => true
  | .obj _ => true

mutual
/-- The string a value has inside `Array.prototype.join`, once it is known
to be neither `undefined` nor `null`. -/
def toJsString : Value → String
  | .undefined => "undefined"
  | .null => "null"
  | .bool b => if b then "true" else "false"
  | .num n => toString n
  | .str t => t
  | .arr xs => joinComma xs
  | .obj _ => "[object Object]"
/-- The string of an array: its elements joined by commas, `undefined` and
`null` elements giving the empty string. -/
def joinComma : List Value → String
  | [] => ""
  | x :: rest =>
    (match x with
      | .undefined => ""
      | .null => ""
      | v => toJsString v) ++ (match rest with
      | [] => ""
      | _ => ",") ++ joinComma rest
end

/-- The call `values.join('')`. -/
def joinEmpty : List Value → String
  | [] => ""
  | x :: rest =>
    (match x with
      | .undefined => ""
      | .null => ""
      | v => toJsString v) ++ joinEmpty rest

/-- Own property `kvs[k]` of an object literal; `none` is `undefined`. -/
def objGet (kvs : List (String × Value)) (k : String) : Option Value :=
  match kvs with
  | [] => none
  | (k', v) :: rest => if k' = k then some v else objGet rest k

/-- Assignment `kvs[k] = v` on an object literal; a new key goes last. -/
def objSet (kvs : List (String × Value)) (k : String) (v : Value) : List (String × Value) :=
  match kvs with
  | [] => [(k, v)]
  | (k', v') :: rest => if k' = k then (k, v) :: rest else (k', v') :: objSet rest k v

/-- The array index a property key denotes, if it is a canonical one:
decimal digits with no leading zero. -/
def parseIndex (cs : List Char) : Option Nat :=
  match cs with
  | [] => none
  | c :: rest =>
    if cs.all Char.isDigit && (c != '0' || rest.isEmpty) then
      some (cs.foldl (fun n d => 10 * n + (d.toNat - '0'.toNat)) 0)
    else none

/-- Property read `o[k]` on a truthy value: own properties of objects,
elements and `length` of arrays and strings. -/
def getProp (o : Value) (k : String) : Value :=
  match o with
  | .obj kvs => (objGet kvs k).getD .undefined
  | .arr xs =>
    if k = "length" then .num xs.length
    else match parseIndex k.data with
      | none => .undefined
      | some i => (xs.get? i).getD .undefined
  | .str t =>
    if k = "length" then .num t.data.length
    else match parseIndex k.data with
      | none => .undefined
      | some i => ((t.data.get? i).map (fun c => Value.str (String.mk [c]))).getD .undefined
  | _ => .undefined

/-- The callback `(o, k) => (o || {})[k]` of source line 118. -/
def stepKey (o : Value) (k : String) : Value :=
  getProp (if truthy o then o else .obj []) k

/-- The call `t.split(c)` for a one-character separator, on character lists. -/
def splitChars (c : Char) : List Char → List (List Char)
  | [] => [[]]
  | x :: xs =>
    if x = c then [] :: splitChars c xs
    else
      match splitChars c xs with
      | [] => [[x]]
      | piece :: pieces => (x :: piece) :: pieces

/-- The call `t.split(c)` for a one-character separator. -/
def jsSplit (c : Char) (t : String) : List String :=
  (splitChars c t.data).map String.mk

/-- White space as `String.prototype.trim` sees it. -/
def isJsSpace (c : Char) : Bool :=
  c.toNat ∈ [0x9, 0xA, 0xB, 0xC, 0xD, 0x20, 0xA0, 0x1680, 0x2028, 0x2029, 0x202F, 0x205F,
    0x3000, 0xFEFF] || (0x2000 ≤ c.toNat && c.toNat ≤ 0x200A)

/-- The call `t.trim()`. -/
def jsTrim (t : String) : String :=
  String.mk ((t.data.dropWhile isJsSpace).reverse.dropWhile isJsSpace).reverse

/-- Source lines 107 and 117-118: the branch of `getNestedValue` that a path
without a comma takes. -/
def dottedLookup (obj : Value) (path : String) : Value :=
  if path = "" then .undefined
  else (jsSplit '.' path).foldl stepKey obj

/-- Source lines 106-119.  The recursive call of line 112 receives a piece
of `path.split(',')`, trimmed: it has no comma, so the call runs
`dottedLookup` (see `getNestedValue_unfold`). -/
def getNestedValue (obj : Value) (path : String) : Value :=
  if path = "" then .undefined
  else if ',' ∈ path.data then
    .str (joinEmpty (((jsSplit ',' path).map (fun field => dottedLookup obj (jsTrim field))).filter
      truthy))
  else (jsSplit '.' path).foldl stepKey obj

/-- Source lines 122-130, from the accumulator `result` on. -/
def mapFields (data : Value) (result : List (String × Value)) :
    List (String × String) → List (String × Value)
  | [] => result
  | (standardField, apiField) :: rest =>
    mapFields data (objSet result standardField (getNestedValue data apiField)) rest

/-- Source lines 122-130. -/
def mapResponseToStandardFormat (data : Value) (fieldMapping : List (String × String)) :
    List (String × Value) :=
  mapFields data [] fieldMapping

/-- The test `standardData[field] !== undefined` of source line 180, with the
value read. -/
def definedField (standardData : List (String × Value)) (field : String) : Option Value :=
  match objGet standardData field with
  | none => none
  | some .undefined => none
  | some v => some v

/-- The `forEach` of source lines 179-183, from the accumulator
`filteredData` on. -/
def filterFields (standardData filteredData : List (String × Value)) :
    List String → List (String × Value)
  | [] => filteredData
  | field :: rest =>
    match definedField standardData field with
    | none => filterFields standardData filteredData rest
    | some v => filterFields standardData (objSet filteredData field v) rest

/-! ## Upstream calls -/

/-- What the upstream does with one HTTP GET: the time the call takes, and
either `response.data` or the message of the error that `axios.get` throws
(time-out, network error, status outside 2xx). -/
structure HttpReply where
  elapsed : Nat
  outcome : Except String Value

/-- The surroundings of one lookup.  `get n url` answers the GET of `url`
issued after `n` earlier GETs of the lookup, `lag r` is the time by which
the 100 ms timer of retry round `r` fires late, `draw n` is the random draw
of the selection made after `n` caught errors (each pass of the loop that
goes round again catches one). -/
structure World where
  get : Nat → String → HttpReply
  lag : Nat → Nat
  draw : Nat → Nat

/-- The call `t.replace(pat, rep)` with a string pattern, on character
lists: the first occurrence is replaced.  The `$` patterns of the
replacement string are not modelled. -/
def replaceFirst (pat rep : List Char) : List Char → List Char
  | [] => if pat.isEmpty then rep else []
  | c :: cs =>
    if pat.isPrefixOf (c :: cs) then rep ++ (c :: cs).drop pat.length
    else c :: replaceFirst pat rep cs

/-- The expression `apiConfig.url.replace('{ip}', ip)`. -/
def requestUrl (apiConfig : Api) (ip : String) : String :=
  String.mk (replaceFirst "\x7bip\x7d".data ip.data apiConfig.url.data)

/-- What one run of `safeQueryIpInfo` leaves behind: the value it resolves
to or the error it rejects with, the state, the clock, and whether the GET
was issued. -/
structure Attempt where
  result : Except JsError LookupResult
  state : State
  now : Nat
  dispatched : Bool

/-- Source lines 172-189: the result built from `response.data`. -/
def buildResult (cfg : Config) (apiConfig : Api) (data : Value) : LookupResult :=
  { source := apiConfig.name,
    data := filterFields (mapResponseToStandardFormat data apiConfig.field_mapping) []
      cfg.response_fields,
    raw_data := data }

/-- Source lines 157-196; `reply` answers the GET. -/
def safeQueryIpInfo (cfg : Config) (reply : String → HttpReply) (now : Nat) (s : State)
    (ip : String) (apiConfig : Api) : Attempt :=
  match isApiAvailable cfg now s apiConfig.name with
  | .error e => { result := .error e, state := s, now := now, dispatched := false }
  | .ok (false, s1) =>
    { result := .error (.error ("API " ++ apiConfig.name ++ " 已达到请求限制或不可用") none),
      state := s1, now := now, dispatched := false }
  | .ok (true, s1) =>
    let s2 := incrementApiCounter s1 apiConfig.name
    let response := reply (requestUrl apiConfig ip)
    match response.outcome with
    | .ok data =>
      { result := .ok (buildResult cfg apiConfig data), state := s2,
        now := now + response.elapsed, dispatched := true }
    | .error message =>
      { result := .error (.error ("查询失败: " ++ message) (some apiConfig.name)), state := s2,
        now := now + response.elapsed, dispatched := true }

/-! ## Lookup orchestrator -/

/-- What one run of `queryIpInfoWithRetry` leaves behind: its result, the
state, the clock, the names of the providers whose GET was issued and the
errors its `catch` block saw, both in order. -/
structure Outcome where
  result : Except JsError LookupResult
  state : State
  now : Nat
  calls : List String
  errors : List JsError

/-- The variables of the retry loop of source lines 216-263, with the
state, the clock and the two logs of `Outcome`. -/
structure LoopVars where
  state : State
  now : Nat
  retryCount : Nat
  triedApis : List String
  lastError : Option JsError
  calls : List String
  errors : List JsError

/-- One pass through the loop body either leaves the function or goes round
again. -/
inductive Step where
  | done : Outcome → Step
  | next : LoopVars → Step

/-- An exception that nothing catches. -/
def throwOut (v : LoopVars) (s : State) (e : JsError) : Outcome :=
  { result := .error e, state := s, now := v.now, calls := v.calls, errors := v.errors }

/-- Source lines 269-271: the error of a lookup that caught no error. -/
def exhaustedError : JsError :=
  .error "查询失败，所有API都无法返回结果" (some "系统")

/-- Source lines 265-272: the code after the loop. -/
def afterLoop (v : LoopVars) (s : State) : Outcome :=
  throwOut v s
    (match v.lastError with
      | some e => e
      | none => exhaustedError)

/-- The call `triedApis.add(name)`. -/
def addTried (triedApis : List String) (name : String) : List String :=
  if name ∈ triedApis then triedApis else triedApis ++ [name]

/-- Source lines 259-261: the test of the `catch` block calls
`getAvailableApis()` when `retryCount === config.retry_count`; the call may
reset counters. -/
def catchScan (cfg : Config) (retryCount : Nat) (now : Nat) (s : State) :
    Except JsError State :=
  if retryCount = cfg.retry_count then
    match getAvailableApis cfg now s with
    | .error e => .error e
    | .ok (_, s1) => .ok s1
  else .ok s

/-- Source lines 239-262: the loop body from the second emptiness test on. -/
def attemptStep (cfg : Config) (w : World) (ip : String) (v : LoopVars)
    (availableApis : List Api) : Step :=
  if availableApis.isEmpty then .done (afterLoop v v.state)
  else
    match selectNextApi cfg (w.draw v.errors.length) v.state availableApis with
    | .error e => .done (throwOut v v.state e)
    | .ok (none, s1) => .done (afterLoop v s1)
    | .ok (some selectedApi, s1) =>
      let a := safeQueryIpInfo cfg (w.get v.calls.length) v.now s1 ip selectedApi
      let calls := if a.dispatched then v.calls ++ [selectedApi.name] else v.calls
      match a.result with
      | .ok result =>
        .done { result := .ok result, state := saveToCache a.now a.state ip result,
                now := a.now, calls := calls, errors := v.errors }
      | .error e =>
        let v1 : LoopVars :=
          { state := a.state, now := a.now, retryCount := v.retryCount,
            triedApis := addTried v.triedApis selectedApi.name, lastError := some e,
            calls := calls, errors := v.errors ++ [e] }
        match catchScan cfg v.retryCount a.now a.state with
        | .error e2 => .done (throwOut v1 a.state e2)
        | .ok s3 => .next { v1 with state := s3 }

/-- Source lines 221-262: one pass through the loop, test included. -/
def loopStep (cfg : Config) (w : World) (ip : String) (v : LoopVars) : Step :=
  if v.retryCount ≤ cfg.retry_count then
    match getAvailableApis cfg v.now v.state with
    | .error e => .done (throwOut v v.state e)
    | .ok (available, s1) =>
      let candidates := available.filter (fun api => !(v.triedApis.contains api.name))
      if candidates.isEmpty then
        if v.retryCount < cfg.retry_count then
          match getAvailableApis cfg v.now s1 with
          | .error e => .done (throwOut v s1 e)
          | .ok (again, s2) =>
            attemptStep cfg w ip
              { v with state := s2, triedApis := [], retryCount := v.retryCount + 1,
                       now := v.now + 100 + w.lag (v.retryCount + 1) } again
        else .done (afterLoop v s1)
      else attemptStep cfg w ip { v with state := s1 } candidates
  else .done (afterLoop v v.state)

/-- The loop of source lines 221-263, run for at most `fuel` passes; `none`
says that the passes did not suffice. -/
def retryLoop (cfg : Config) (w : World) (ip : String) : Nat → LoopVars → Option Outcome
  | 0, _ => none
  | fuel + 1, v =>
    match loopStep cfg w ip v with
    | .done o => some o
    | .next v1 => retryLoop cfg w ip fuel v1

/-- A number of passes that suffices for every lookup (`retryLoop_total`). -/
def loopFuel (cfg : Config) : Nat :=
  (cfg.retry_count + 1) * (cfg.upstream_apis.length + 1) + 1

/-- Source lines 199-273, with the loop run for at most `fuel` passes. -/
def queryWithFuel (cfg : Config) (w : World) (fuel : Nat) (now : Nat) (s : State)
    (ip : String) : Option Outcome :=
  match getFromCache cfg now s ip with
  | (some cachedData, s1) =>
    some { result := .ok cachedData, state := s1, now := now, calls := [], errors := [] }
  | (none, s1) =>
    match getAvailableApis cfg now s1 with
    | .error e => some { result := .error e, state := s1, now := now, calls := [], errors := [] }
    | .ok (availableApis, s2) =>
      if availableApis.isEmpty then
        some { result := .error (.error "所有API都已达到请求限制或不可用" (some "系统")),
               state := s2, now := now, calls := [], errors := [] }
      else
        retryLoop cfg w ip fuel
          { state := s2, now := now, retryCount := 0, triedApis := [], lastError := none,
            calls := [], errors := [] }

/-- Source lines 199-273. -/
def queryIpInfoWithRetry (cfg : Config) (w : World) (now : Nat) (s : State) (ip : String) :
    Option Outcome :=
  queryWithFuel cfg w (loopFuel cfg) now s ip

/-! ## Module load -/

/-- The `forEach` of source lines 18-24, from the counters built so far on. -/
def initCounters (now : Nat) (counters : String → Option Counter) :
    List Api → (String → Option Counter)
  | [] => counters
  | api :: rest =>
    initCounters now
      (setKey counters api.name { count := 0, windowStartTime := now, isAvailable := api.enabled })
      rest

/-- The state right after the module is loaded at time `now` (source lines
11-24). -/
def initialState (cfg : Config) (now : Nat) : State :=
  { apiRequestCounters := initCounters now (fun _ => none) cfg.upstream_apis,
    lastUsedApiIndex := -1,
    ipCache := fun _ => none }

/-- Every registered provider has a counter: what module load establishes
and no function of the module undoes. -/
def CountersReady (cfg : Config) (s : State) : Prop :=
  ∀ api ∈ cfg.upstream_apis, ∃ c, s.apiRequestCounters api.name = some c

/-- What holds of every state the module reaches: the counters are ready and
the cursor, which starts at -1 and is only ever assigned an index, is at
least -1. -/
def StateOk (cfg : Config) (s : State) : Prop :=
  CountersReady cfg s ∧ -1 ≤ s.lastUsedApiIndex

/-- The provider registered under `name` is enabled and its count is below
its `max_requests`. -/
def underLimit (cfg : Config) (s : State) (name : String) : Bool :=
  match findApi cfg name, s.apiRequestCounters name with
  | some api, some c => api.enabled && decide ((c.count : Int) < api.max_requests)
  | _, _ => false

/-- The number of registered providers whose name is not in `triedApis`. -/
def untried (cfg : Config) (triedApis : List String) : Nat :=
  (cfg.upstream_apis.filter (fun api => !(triedApis.contains api.name))).length

/-- A bound on the number of passes the retry loop still makes. -/
def loopMeasure (cfg : Config) (v : LoopVars) : Nat :=
  (cfg.retry_count - v.retryCount) * (cfg.upstream_apis.length + 1) + untried cfg v.triedApis

/-! ## Auxiliary definitions: example inputs, invariants and measures -/

/-- A provider with a limit of one request per 60 seconds. -/
def demoApi : Api :=
  { name := "ipapi", url := "http://ip-api.com/json/\x7bip\x7d", enabled := true,
    max_requests := 1, time_window := 60,
    field_mapping := [("ip", "query"), ("country", "country"), ("city", "regionName,city")] }

/-- A configuration with `demoApi` alone and a cache TTL of 300 seconds. -/
def demoConfig : Config :=
  { upstream_apis := [demoApi], load_balance_strategy := none, default_timeout := 5000,
    retry_count := 1, cache_ttl := 300, response_fields := ["ip", "country", "city"] }

/-- A result as the cache may hold it. -/
def demoResult : LookupResult :=
  { source := "ipapi", data := [("ip", .str "8.8.8.8")], raw_data := .obj [("query", .str "8.8.8.8")] }

/-- The counter of `demoApi` is at its limit, its window started at time 0;
the cache holds `demoResult` for 8.8.8.8, written at time 0. -/
def demoState : State :=
  { apiRequestCounters := setKey (fun _ => none) "ipapi"
      { count := 1, windowStartTime := 0, isAvailable := true },
    lastUsedApiIndex := -1,
    ipCache := setKey (fun _ => none) "8.8.8.8" { data := demoResult, timestamp := 0 } }

/-- Surroundings in which every GET times out after 5 seconds. -/
def failingWorld : World :=
  { get := fun _ _ => { elapsed := 5000, outcome := .error "timeout of 5000ms exceeded" },
    lag := fun _ => 0,
    draw := fun _ => 0 }

/-- The expression `apiRequestCounters[api.name].count`; 0 stands in where
the provider has no counter. -/
def countOf (s : State) (api : Api) : Nat :=
  match s.apiRequestCounters api.name with
  | some c => c.count
  | none => 0

/-- Three providers for the selector checks. -/
def apiA : Api :=
  { name := "a", url := "http://a.example/\x7bip\x7d", enabled := true, max_requests := 5,
    time_window := 60, field_mapping := [("ip", "query")] }

/-- See `apiA`. -/
def apiB : Api :=
  { name := "b", url := "http://b.example/\x7bip\x7d", enabled := true, max_requests := 5,
    time_window := 60, field_mapping := [("ip", "ip")] }

/-- See `apiA`. -/
def apiC : Api :=
  { name := "c", url := "http://c.example/\x7bip\x7d", enabled := true, max_requests := 5,
    time_window := 60, field_mapping := [("ip", "address")] }

/-- The three providers under the strategy `least_used`. -/
def leastUsedConfig : Config :=
  { upstream_apis := [apiA, apiB, apiC], load_balance_strategy := some "least_used",
    default_timeout := 5000, retry_count := 1, cache_ttl := 300,
    response_fields := ["ip"] }

/-- Counts 3, 1 and 1 for the providers a, b and c. -/
def leastUsedState : State :=
  { apiRequestCounters := fun name =>
      if name = "a" then some { count := 3, windowStartTime := 0, isAvailable := true }
      else if name = "b" then some { count := 1, windowStartTime := 0, isAvailable := true }
      else if name = "c" then some { count := 1, windowStartTime := 0, isAvailable := true }
      else none,
    lastUsedApiIndex := -1,
    ipCache := fun _ => none }

/-- Follows the words of the specification: a value is left out of the
concatenation when it is empty (the empty string) or missing (`undefined`
or `null`). -/
def emptyOrMissing : Value → Bool
  | .undefined => true
  | .null => true
  | .str t => decide (t = "")
  | _ => false

/-- Follows the words of the specification for a path with a comma: the
concatenation, in the order of the comma-separated sub-paths, of the
dotted-path lookups that are non-empty, the empty or missing ones left out. -/
def specConcatLookup (obj : Value) (path : String) : Value :=
  .str (joinEmpty (((jsSplit ',' path).map (fun field => dottedLookup obj field)).filter
    (fun v => !emptyOrMissing v)))

/-- The response of the example in the specification. -/
def regionCity : Value :=
  .obj [("region", .str "CA"), ("city", .str "")]

/-- A response with a numeric field that is zero. -/
def regionZero : Value :=
  .obj [("region", .str "CA"), ("code", .num 0)]

/-- A reply of the provider of `demoApi`. -/
def demoPayload : Value :=
  .obj [("query", .str "8.8.8.8"), ("country", .str "US"), ("regionName", .str "CA"),
    ("city", .str ""), ("zip", .num 94035)]

/-- State `s1` comes from `s` by counter resets alone: cache and cursor are
the same, and each counter is the same or, if there was one, a counter with
count 0. -/
def ResetOnly (cfg : Config) (s s1 : State) : Prop :=
  s1.ipCache = s.ipCache ∧ s1.lastUsedApiIndex = s.lastUsedApiIndex ∧
    ∀ name, s1.apiRequestCounters name = s.apiRequestCounters name ∨
      ∃ api c t, findApi cfg name = some api ∧ s.apiRequestCounters name = some c ∧
        s1.apiRequestCounters name =
          some { count := 0, windowStartTime := t, isAvailable := api.enabled }

/-- The providers a and b under the default strategy, with one retry. -/
def twoConfig : Config :=
  { upstream_apis := [apiA, apiB], load_balance_strategy := none, default_timeout := 5000,
    retry_count := 1, cache_ttl := 300, response_fields := ["ip"] }

/-- Surroundings in which the first GET of a lookup fails after 40 ms and
every later one succeeds after 30 ms. -/
def flakyWorld : World :=
  { get := fun n _ =>
      if n = 0 then { elapsed := 40, outcome := .error "connect ECONNREFUSED" }
      else { elapsed := 30, outcome := .ok (.obj [("ip", .str "9.9.9.9")]) },
    lag := fun _ => 0,
    draw := fun _ => 0 }

/-- One lookup of a sequence: the IP asked for, the time of the call and
the surroundings the lookup runs in. -/
structure Request where
  ip : String
  now : Nat
  world : World

/-- Lookups run one after the other, each from the state the one before
left: the outcomes in order. -/
def lookupSeq (cfg : Config) : State → List Request → List (Option Outcome)
  | _, [] => []
  | s, r :: rest =>
    match queryIpInfoWithRetry cfg r.world r.now s r.ip with
    | none => [none]
    | some o => some o :: lookupSeq cfg o.state rest

/-- The name of the provider that served a lookup, if the lookup returned a
result. -/
def servedBy (o : Option Outcome) : Option String :=
  match o with
  | none => none
  | some out =>
    match out.result with
    | .ok r => some r.source
    | .error _ => none

/-- Surroundings in which every GET succeeds after 25 ms. -/
def steadyWorld : World :=
  { get := fun _ _ => { elapsed := 25, outcome := .ok (.obj [("query", .str "x")]) },
    lag := fun _ => 0,
    draw := fun _ => 0 }

/-- The three providers a, b, c under `round_robin`. -/
def rotationConfig : Config :=
  { upstream_apis := [apiA, apiB, apiC], load_balance_strategy := some "round_robin",
    default_timeout := 5000, retry_count := 1, cache_ttl := 300,
    response_fields := ["ip"] }

/-- Four lookups of four IPs, one second apart. -/
def rotationRequests : List Request :=
  [ { ip := "10.0.0.1", now := 1000, world := steadyWorld },
    { ip := "10.0.0.2", now := 2000, world := steadyWorld },
    { ip := "10.0.0.3", now := 3000, world := steadyWorld },
    { ip := "10.0.0.4", now := 4000, world := steadyWorld } ]

/-- One call from outside into the rate limiter: `isApiAvailable(name)`,
`getAvailableApis()` or `safeQueryIpInfo(ip, apiConfig)`, with the time of
the call and, for the last, the answer of the upstream. -/
inductive RateOp where
  | check (name : String) (now : Nat) : RateOp
  | scan (now : Nat) : RateOp
  | query (ip : String) (apiConfig : Api) (reply : String → HttpReply) (now : Nat) : RateOp

/-- The state after one such call; a call that throws leaves the state as it
found it. -/
def runOp (cfg : Config) (s : State) : RateOp → State
  | .check name now =>
    match isApiAvailable cfg now s name with
    | .ok (_, s1) => s1
    | .error _ => s
  | .scan now =>
    match getAvailableApis cfg now s with
    | .ok (_, s1) => s1
    | .error _ => s
  | .query ip apiConfig reply now => (safeQueryIpInfo cfg reply now s ip apiConfig).state

/-- The state after a sequence of such calls, one after the other. -/
def runOps (cfg : Config) (s : State) (ops : List RateOp) : State :=
  ops.foldl (runOp cfg) s

/-- The counter of the provider registered under `name` exists and its count
is at most the provider's `max_requests`. -/
def WithinLimit (cfg : Config) (name : String) (s : State) : Prop :=
  ∃ api c, findApi cfg name = some api ∧ s.apiRequestCounters name = some c ∧
    (c.count : Int) ≤ api.max_requests

/-- Calls on `demoApi` (limit 1 per 60 s): two lookups in the first window,
a scan, and a lookup after the window has run out. -/
def demoOps : List RateOp :=
  [ .query "1.1.1.1" demoApi (steadyWorld.get 0) 1000,
    .query "1.1.1.2" demoApi (steadyWorld.get 0) 2000,
    .scan 3000,
    .check "ipapi" 4000,
    .query "1.1.1.3" demoApi (steadyWorld.get 0) 70000 ]

/-- The test under which `isApiAvailable(name)` puts the counter of `name`
back to 0 (source lines 41 and 47): the provider registered under the name
is enabled, has a counter, and its window has run out at time `now`. -/
def resetsCounter (cfg : Config) (now : Nat) (s : State) (name : String) : Bool :=
  match findApi cfg name, s.apiRequestCounters name with
  | some api, some c => api.enabled && windowExpired api c now
  | _, _ => false

/-- The call puts the counter of `name` back to 0. -/
def opResets (cfg : Config) (name : String) (s : State) : RateOp → Bool
  | .check other now => decide (other = name) && resetsCounter cfg now s name
  | .scan now =>
    cfg.upstream_apis.any (fun api => decide (api.name = name)) && resetsCounter cfg now s name
  | .query _ apiConfig _ now => decide (apiConfig.name = name) && resetsCounter cfg now s name

/-- The call sends a GET to the provider `name`. -/
def opSends (cfg : Config) (name : String) (s : State) : RateOp → Bool
  | .query ip apiConfig reply now =>
    decide (apiConfig.name = name) && (safeQueryIpInfo cfg reply now s ip apiConfig).dispatched
  | _ => false

/-- The number of GETs sent to the provider `name` since its counter was
last put back to 0, after the calls `ops` made from state `s`, where `tally`
is that number before the calls. -/
def sentSinceReset (cfg : Config) (name : String) : State → Nat → List RateOp → Nat
  | _, tally, [] => tally
  | s, tally, op :: rest =>
    sentSinceReset cfg name (runOp cfg s op)
      ((if opResets cfg name s op then 0 else tally) + (if opSends cfg name s op then 1 else 0))
      rest

/-- The number of runs of `safeQueryIpInfo` that the retry loop can still
make from the variables `v`: what is left of this round, and all of the
rounds to come. -/
def attemptsLeft (cfg : Config) (v : LoopVars) : Nat :=
  (cfg.retry_count - v.retryCount) * cfg.upstream_apis.length + untried cfg v.triedApis

/-- The number of runs of `safeQueryIpInfo` in a lookup: one for each error
the `catch` block saw, and one more when the lookup returned the result of a
GET (a result that comes from the cache has no GET). -/
def attemptsOf (o : Outcome) : Nat :=
  o.errors.length +
    (match o.result with
      | .ok _ => if o.calls.isEmpty then 0 else 1
      | .error _ => 0)

/-! ## Client address -/

/-- One entry of `config.ip_headers` in the format with priorities. -/
structure IpHeader where
  name : String
  priority : Int
  deriving DecidableEq, Repr

/-- The value of `config.ip_headers`: not an array, an array whose first
element is an object (the format with priorities), or an array of header
names. -/
inductive IpHeaders where
  | absent : IpHeaders
  | prioritized (entries : List IpHeader) : IpHeaders
  | plain (names : List String) : IpHeaders

/-- What `getClientIp` reads of the request: `req.headers`, keyed by the
header name in lower case, `req.connection.remoteAddress` and
`req.socket.remoteAddress`. -/
structure HttpRequest where
  headers : String → Option String
  connectionRemoteAddress : Option String
  socketRemoteAddress : Option String

/-- The expression `a || b` for a string `a` that may be `undefined`. -/
def orElse (a : Option String) (b : String) : String :=
  match a with
  | none => b
  | some t => if t = "" then b else t

/-- The call `t.toLowerCase()`, for the ASCII letters that header names are
made of. -/
def jsToLowerCase (t : String) : String :=
  String.mk (t.data.map Char.toLower)

/-- The call `[...entries].sort((a, b) => a.priority - b.priority)`: the
sort is stable, entries of equal priority keep their order. -/
def sortByPriority (entries : List IpHeader) : List IpHeader :=
  entries.insertionSort (fun a b => a.priority ≤ b.priority)

/-- Source lines 278-296: the header names to try, in order. -/
def headerNames : IpHeaders → List String
  | .absent => ["x-forwarded-for", "x-real-ip"]
  | .prioritized entries => (sortByPriority entries).map IpHeader.name
  | .plain names => names

/-- Source lines 304-305: the entries of a header value, trimmed, the empty
ones left out. -/
def headerEntries (headerValue : String) : List String :=
  ((jsSplit ',' headerValue).map jsTrim).filter (fun ip => decide (ip ≠ ""))

/-- The address a header of the request yields: `none` when the header is
missing or empty or has no entry. -/
def usableEntry (req : HttpRequest) (name : String) : Option String :=
  match req.headers (jsToLowerCase name) with
  | none => none
  | some headerValue => if headerValue = "" then none else (headerEntries headerValue).head?

/-- Source lines 299-310: the loop over the header names; `none` when the
loop ends without a `return`. -/
def scanHeaders (req : HttpRequest) : List String → Option String
  | [] => none
  | name :: rest =>
    match usableEntry req name with
    | some ip => some ip
    | none => scanHeaders req rest

/-- Source lines 276-316. -/
def getClientIp (ipHeaders : IpHeaders) (req : HttpRequest) : String :=
  match scanHeaders req (headerNames ipHeaders) with
  | some ip => ip
  | none => orElse req.connectionRemoteAddress (orElse req.socketRemoteAddress "")

namespace Server

/-- Lines 69-71 of `src/index.js`: what its `getClientIp` returns when the
loop over the configured headers has returned nothing. -/
def fallbackIp (req : HttpRequest) : String :=
  let forwardedIpsStr := orElse (req.headers "x-forwarded-for") ""
  let forwardedIps := (jsSplit ',' forwardedIpsStr).map jsTrim
  orElse forwardedIps.head?
    (orElse (req.headers "x-real-ip")
      (orElse req.connectionRemoteAddress (orElse req.socketRemoteAddress "")))

/-- Lines 44-72 of `src/index.js`; `ipConfig` is `none` when reading the
configuration throws. -/
def getClientIp (ipConfig : Option IpHeaders) (req : HttpRequest) : String :=
  let found :=
    match ipConfig with
    | some (.prioritized entries) => scanHeaders req ((sortByPriority entries).map IpHeader.name)
    | some (.plain names) => scanHeaders req names
    | _ => none
  match found with
  | some ip => ip
  | none => fallbackIp req

end Server

/-- The default header list, real-ip listed first but with the higher
priority number. -/
def demoHeaders : List IpHeader :=
  [ { name := "X-Real-IP", priority := 2 }, { name := "X-Forwarded-For", priority := 1 } ]

/-- A request that came through two proxies. -/
def proxiedRequest : HttpRequest :=
  { headers := fun name =>
      if name = "x-forwarded-for" then some "203.0.113.7, 10.0.0.2"
      else if name = "x-real-ip" then some "10.0.0.2"
      else none,
    connectionRemoteAddress := some "127.0.0.1",
    socketRemoteAddress := some "127.0.0.1" }

theorem isApiAvailable_disabled (cfg : Config) (now : Nat) (s : State) (name : String)
    (api : Api) (hfind : findApi cfg name = some api) (hoff : api.enabled = false) :
    isApiAvailable cfg now s name = .ok (false, s) := by
  simp [isApiAvailable, hfind, hoff]

theorem isApiAvailable_expired (cfg : Config) (now : Nat) (s : State) (name : String)
    (api : Api) (c : Counter) (hfind : findApi cfg name = some api)
    (hon : api.enabled = true) (hc : s.apiRequestCounters name = some c)
    (hexp : (now : Int) - (c.windowStartTime : Int) > api.time_window * 1000) :
    isApiAvailable cfg now s name =
      .ok (true, { s with
        apiRequestCounters := setKey s.apiRequestCounters name (Counter.mk 0 now api.enabled) }) := by
  simp [isApiAvailable, hfind, hon, hc, windowExpired, hexp, resetRequestCounter]

theorem isApiAvailable_inWindow (cfg : Config) (now : Nat) (s : State) (name : String)
    (api : Api) (c : Counter) (hfind : findApi cfg name = some api)
    (hon : api.enabled = true) (hc : s.apiRequestCounters name = some c)
    (hin : ¬ ((now : Int) - (c.windowStartTime : Int) > api.time_window * 1000)) :
    isApiAvailable cfg now s name =
      .ok (decide ((c.count : Int) < api.max_requests), s) := by
  simp [isApiAvailable, hfind, hon, hc, windowExpired, hin]

/-- C2: for a registered provider with its counter, `isApiAvailable` returns
true exactly when the provider is enabled and either (a) the time since the
window start exceeds the window length, or (b) the count is strictly below
`max_requests`.  When the provider is enabled and (a) holds, the counter is
replaced by count 0 and window start `now`; in every other case (answer by
(b), or answer false) the state is the one before the call. -/
theorem isApiAvailable_iff (cfg : Config) (now : Nat) (s : State) (name : String)
    (api : Api) (c : Counter) (hfind : findApi cfg name = some api)
    (hc : s.apiRequestCounters name = some c) :
    ∃ (b : Bool) (s1 : State), isApiAvailable cfg now s name = .ok (b, s1) ∧
      (b = true ↔ api.enabled = true ∧
        ((now : Int) - (c.windowStartTime : Int) > api.time_window * 1000 ∨
          (c.count : Int) < api.max_requests)) ∧
      ((api.enabled = true ∧
          (now : Int) - (c.windowStartTime : Int) > api.time_window * 1000) →
        s1.apiRequestCounters name =
            some { count := 0, windowStartTime := now, isAvailable := api.enabled } ∧
          (∀ other, other ≠ name → s1.apiRequestCounters other = s.apiRequestCounters other) ∧
          s1.lastUsedApiIndex = s.lastUsedApiIndex ∧ s1.ipCache = s.ipCache) ∧
      (¬ (api.enabled = true ∧
          (now : Int) - (c.windowStartTime : Int) > api.time_window * 1000) → s1 = s) := by
  cases hen : api.enabled with
  | false =>
    refine ⟨false, s, isApiAvailable_disabled cfg now s name api hfind hen, ?_, ?_, ?_⟩ <;> simp
  | true =>
    by_cases hexp : (now : Int) - (c.windowStartTime : Int) > api.time_window * 1000
    · refine ⟨true, _, isApiAvailable_expired cfg now s name api c hfind hen hc hexp, ?_, ?_, ?_⟩
      · simp [hexp]
      · intro _
        refine ⟨by simp [setKey, hen], ?_, rfl, rfl⟩
        intro other hne
        simp [setKey, hne]
      · intro h
        exact absurd ⟨rfl, hexp⟩ h
    · refine ⟨_, s, isApiAvailable_inWindow cfg now s name api c hfind hen hc hexp, ?_, ?_, ?_⟩
      · simp [hexp]
      · intro h
        exact absurd h.2 hexp
      · intro _
        rfl

/-- Witness of C2: `demoApi` at its limit, 61 seconds after the window
start. -/
theorem isApiAvailable_iff_witness :
    ∃ (b : Bool) (s1 : State), isApiAvailable demoConfig 61000 demoState "ipapi" = .ok (b, s1) ∧
      (b = true ↔ demoApi.enabled = true ∧
        (((61000 : Nat) : Int) - ((0 : Nat) : Int) > demoApi.time_window * 1000 ∨
          ((1 : Nat) : Int) < demoApi.max_requests)) ∧
      ((demoApi.enabled = true ∧
          ((61000 : Nat) : Int) - ((0 : Nat) : Int) > demoApi.time_window * 1000) →
        s1.apiRequestCounters "ipapi" =
            some { count := 0, windowStartTime := 61000, isAvailable := demoApi.enabled } ∧
          (∀ other, other ≠ "ipapi" →
            s1.apiRequestCounters other = demoState.apiRequestCounters other) ∧
          s1.lastUsedApiIndex = demoState.lastUsedApiIndex ∧ s1.ipCache = demoState.ipCache) ∧
      (¬ (demoApi.enabled = true ∧
          ((61000 : Nat) : Int) - ((0 : Nat) : Int) > demoApi.time_window * 1000) →
        s1 = demoState) :=
  isApiAvailable_iff demoConfig 61000 demoState "ipapi" demoApi
    { count := 1, windowStartTime := 0, isAvailable := true } rfl rfl

/-- C3, as stated, fails at the end of the window: `demoApi` is enabled, its
count 1 has reached `max_requests` 1, and at time 60000 exactly the 60
seconds of its window have elapsed since the window start 0, yet
`isApiAvailable` answers false and resets nothing. -/
theorem isApiAvailable_window_end_counterexample :
    demoApi.enabled = true ∧
      demoState.apiRequestCounters "ipapi" =
        some { count := 1, windowStartTime := 0, isAvailable := true } ∧
      ((1 : Nat) : Int) = demoApi.max_requests ∧
      ((60000 : Nat) : Int) - ((0 : Nat) : Int) = demoApi.time_window * 1000 ∧
      isApiAvailable demoConfig 60000 demoState "ipapi" = .ok (false, demoState) := by
  refine ⟨rfl, rfl, rfl, by decide, ?_⟩
  exact isApiAvailable_inWindow demoConfig 60000 demoState "ipapi" demoApi
    { count := 1, windowStartTime := 0, isAvailable := true } rfl rfl rfl (by decide)

/-- C3, amended: for an enabled provider whose count has reached
`max_requests`, `isApiAvailable` returns false and changes nothing at every
time at which at most the window length has elapsed since the window start;
at every time at which more than the window length has elapsed it returns
true and the counter is replaced by count 0 with window start `now`. -/
theorem isApiAvailable_at_limit (cfg : Config) (now : Nat) (s : State) (name : String)
    (api : Api) (c : Counter) (hfind : findApi cfg name = some api)
    (hon : api.enabled = true) (hc : s.apiRequestCounters name = some c)
    (hfull : api.max_requests ≤ (c.count : Int)) :
    ((now : Int) - (c.windowStartTime : Int) ≤ api.time_window * 1000 →
        isApiAvailable cfg now s name = .ok (false, s)) ∧
      ((now : Int) - (c.windowStartTime : Int) > api.time_window * 1000 →
        ∃ s1, isApiAvailable cfg now s name = .ok (true, s1) ∧
          s1.apiRequestCounters name =
            some { count := 0, windowStartTime := now, isAvailable := true }) := by
  constructor
  · intro hin
    rw [isApiAvailable_inWindow cfg now s name api c hfind hon hc (not_lt.mpr hin)]
    simp [not_lt.mpr hfull]
  · intro hexp
    refine ⟨_, isApiAvailable_expired cfg now s name api c hfind hon hc hexp, ?_⟩
    simp [setKey, hon]

/-- Witness of amended C3: `demoApi` at its limit. -/
theorem isApiAvailable_at_limit_witness :
    (((59000 : Nat) : Int) - ((0 : Nat) : Int) ≤ demoApi.time_window * 1000 →
        isApiAvailable demoConfig 59000 demoState "ipapi" = .ok (false, demoState)) ∧
      (((59000 : Nat) : Int) - ((0 : Nat) : Int) > demoApi.time_window * 1000 →
        ∃ s1, isApiAvailable demoConfig 59000 demoState "ipapi" = .ok (true, s1) ∧
          s1.apiRequestCounters "ipapi" =
            some { count := 0, windowStartTime := 59000, isAvailable := true }) :=
  isApiAvailable_at_limit demoConfig 59000 demoState "ipapi" demoApi
    { count := 1, windowStartTime := 0, isAvailable := true } rfl rfl rfl (by decide)

/-! ## Response cache: theorems -/

/-- C4, as stated, fails when the age of the entry equals the TTL: the
entry of 8.8.8.8 was written at time 0, the TTL is 300 seconds, and at time
300000 (elapsed = TTL, so not strictly less) `getFromCache` still returns
the stored result and keeps the entry. -/
theorem getFromCache_ttl_end_counterexample :
    demoState.ipCache "8.8.8.8" = some { data := demoResult, timestamp := 0 } ∧
      ((300000 : Nat) : Int) - ((0 : Nat) : Int) = demoConfig.cache_ttl * 1000 ∧
      getFromCache demoConfig 300000 demoState "8.8.8.8" = (some demoResult, demoState) := by
  refine ⟨rfl, by decide, ?_⟩
  have h : demoState.ipCache "8.8.8.8" = some { data := demoResult, timestamp := 0 } := rfl
  simp [getFromCache, h, cacheExpired, demoConfig]

/-- C4, amended: `getFromCache` returns the stored result if an entry for
the IP is present and the time elapsed since its write is at most the TTL;
otherwise (absent, or elapsed > TTL) it returns `null`, no entry for the IP
remains; every other entry, every counter and the cursor are as before. -/
theorem getFromCache_spec (cfg : Config) (now : Nat) (s : State) (ip : String) :
    (getFromCache cfg now s ip).1 =
        ((s.ipCache ip).filter (fun item =>
          decide ((now : Int) - (item.timestamp : Int) ≤ cfg.cache_ttl * 1000))).map
          CacheItem.data ∧
      (getFromCache cfg now s ip).2.ipCache ip =
        (s.ipCache ip).filter (fun item =>
          decide ((now : Int) - (item.timestamp : Int) ≤ cfg.cache_ttl * 1000)) ∧
      (∀ other, other ≠ ip → (getFromCache cfg now s ip).2.ipCache other = s.ipCache other) ∧
      (getFromCache cfg now s ip).2.apiRequestCounters = s.apiRequestCounters ∧
      (getFromCache cfg now s ip).2.lastUsedApiIndex = s.lastUsedApiIndex := by
  cases hitem : s.ipCache ip with
  | none => simp [getFromCache, hitem]
  | some item =>
    by_cases hexp : (now : Int) - (item.timestamp : Int) > cfg.cache_ttl * 1000
    · have hle : ¬ ((now : Int) - (item.timestamp : Int) ≤ cfg.cache_ttl * 1000) := not_le.mpr hexp
      have hget : getFromCache cfg now s ip = (none, { s with ipCache := delKey s.ipCache ip }) := by
        simp [getFromCache, hitem, cacheExpired, hexp]
      rw [hget]
      refine ⟨?_, ?_, ?_, ?_, ?_⟩
      · simp [Option.filter, hle]
      · simp [Option.filter, hle, delKey]
      · intro other hne
        simp [delKey, hne]
      · rfl
      · rfl
    · have hle : (now : Int) - (item.timestamp : Int) ≤ cfg.cache_ttl * 1000 := not_lt.mp hexp
      have hget : getFromCache cfg now s ip = (some item.data, s) := by
        simp [getFromCache, hitem, cacheExpired, hexp]
      rw [hget]
      refine ⟨?_, ?_, ?_, ?_, ?_⟩
      · simp [Option.filter, hle]
      · simp [Option.filter, hle, hitem]
      · intro other _
        rfl
      · rfl
      · rfl

/-! ## Lookup orchestrator: the cache hit -/

/-- C1: when the cache holds an entry for the IP that is younger than the
TTL, `queryIpInfoWithRetry` returns the cached result, issues no GET, and
leaves the whole state (every counter, the cursor, the cache) and the clock
as they were. -/
theorem queryIpInfoWithRetry_cache_hit (cfg : Config) (w : World) (now : Nat) (s : State)
    (ip : String) (item : CacheItem) (hentry : s.ipCache ip = some item)
    (hyoung : (now : Int) - (item.timestamp : Int) < cfg.cache_ttl * 1000) :
    queryIpInfoWithRetry cfg w now s ip =
      some { result := .ok item.data, state := s, now := now, calls := [], errors := [] } := by
  have hnot : ¬ ((now : Int) - (item.timestamp : Int) > cfg.cache_ttl * 1000) :=
    not_lt.mpr (le_of_lt hyoung)
  simp [queryIpInfoWithRetry, queryWithFuel, getFromCache, hentry, cacheExpired, hnot]

/-- Witness of C1: the entry of `demoState`, one second old. -/
theorem queryIpInfoWithRetry_cache_hit_witness :
    queryIpInfoWithRetry demoConfig failingWorld 1000 demoState "8.8.8.8" =
      some { result := .ok demoResult, state := demoState, now := 1000, calls := [],
             errors := [] } :=
  queryIpInfoWithRetry_cache_hit demoConfig failingWorld 1000 demoState "8.8.8.8"
    { data := demoResult, timestamp := 0 } rfl (by decide)

/-! ## Selector: theorems -/

theorem leastStep_ok (s : State) (least current : Api)
    (hl : ∃ c, s.apiRequestCounters least.name = some c)
    (hc : ∃ c, s.apiRequestCounters current.name = some c) :
    leastStep s least current =
      .ok (if countOf s current < countOf s least then current else least) := by
  obtain ⟨cl, hcl⟩ := hl
  obtain ⟨cc, hcc⟩ := hc
  simp [leastStep, countOf, hcl, hcc]

/-- The accumulator of `leastUsed` is the first provider of least count
among those the `reduce` has visited. -/
theorem leastUsed_first_min (s : State) :
    ∀ (rest pre : List Api) (least : Api) (i : Nat),
      (∀ api ∈ rest, ∃ c, s.apiRequestCounters api.name = some c) →
      (∃ c, s.apiRequestCounters least.name = some c) →
      pre[i]? = some least →
      (∀ b ∈ pre, countOf s least ≤ countOf s b) →
      (∀ j b, j < i → pre[j]? = some b → countOf s least < countOf s b) →
      ∃ (a : Api) (k : Nat), leastUsed s least rest = .ok a ∧ (pre ++ rest)[k]? = some a ∧
        (∀ b ∈ pre ++ rest, countOf s a ≤ countOf s b) ∧
        (∀ j b, j < k → (pre ++ rest)[j]? = some b → countOf s a < countOf s b) := by
  intro rest
  induction rest with
  | nil =>
    intro pre least i _ _ hi hmin hfirst
    exact ⟨least, i, rfl, by simpa using hi, by simpa using hmin, by simpa using hfirst⟩
  | cons current rest ih =>
    intro pre least i hrest hleast hi hmin hfirst
    have hcur : ∃ c, s.apiRequestCounters current.name = some c :=
      hrest current (List.mem_cons_self _ _)
    have hrest1 : ∀ api ∈ rest, ∃ c, s.apiRequestCounters api.name = some c :=
      fun api h => hrest api (List.mem_cons_of_mem _ h)
    have hilt : i < pre.length := by
      by_contra hge
      rw [List.getElem?_eq_none (not_lt.mp hge)] at hi
      exact Option.noConfusion hi
    have hsplit : pre ++ current :: rest = (pre ++ [current]) ++ rest := by simp
    rw [hsplit]
    simp only [leastUsed, leastStep_ok s least current hleast hcur]
    by_cases hlt : countOf s current < countOf s least
    · simp only [hlt, if_true]
      apply ih (pre ++ [current]) current pre.length hrest1 hcur
      · simp
      · intro b hb
        rcases List.mem_append.mp hb with hb | hb
        · exact le_trans (le_of_lt hlt) (hmin b hb)
        · simp at hb
          rw [hb]
      · intro j b hj hjb
        rw [List.getElem?_append_left hj] at hjb
        exact lt_of_lt_of_le hlt (hmin b (List.getElem?_mem hjb))
    · simp only [hlt, if_false]
      apply ih (pre ++ [current]) least i hrest1 hleast
      · rw [List.getElem?_append_left hilt]
        exact hi
      · intro b hb
        rcases List.mem_append.mp hb with hb | hb
        · exact hmin b hb
        · simp at hb
          rw [hb]
          exact not_lt.mp hlt
      · intro j b hj hjb
        rw [List.getElem?_append_left (lt_trans hj hilt)] at hjb
        exact hfirst j b hj hjb

/-- C8: under `least_used`, for a non-empty candidate list whose providers
have counters, `selectNextApi` returns a candidate of least count, the first
such candidate of the list, and returns the state it was given. -/
theorem selectNextApi_least_used (cfg : Config) (draw : Nat) (s : State)
    (candidates : List Api) (hstrategy : cfg.load_balance_strategy = some "least_used")
    (hne : candidates ≠ [])
    (hready : ∀ api ∈ candidates, ∃ c, s.apiRequestCounters api.name = some c) :
    ∃ (a : Api) (k : Nat), selectNextApi cfg draw s candidates = .ok (some a, s) ∧
      candidates[k]? = some a ∧
      (∀ b ∈ candidates, countOf s a ≤ countOf s b) ∧
      (∀ j b, j < k → candidates[j]? = some b → countOf s a < countOf s b) := by
  have hs : strategyOf cfg = "least_used" := by
    simp [strategyOf, hstrategy]
  match candidates, hne, hready with
  | [only], _, _ =>
    refine ⟨only, 0, rfl, rfl, ?_, ?_⟩
    · intro b hb
      simp at hb
      rw [hb]
    · intro j b hj
      exact absurd hj (Nat.not_lt_zero j)
  | first :: second :: rest, _, hready =>
    have hfirst : ∃ c, s.apiRequestCounters first.name = some c :=
      hready first (List.mem_cons_self _ _)
    have hrest : ∀ api ∈ second :: rest, ∃ c, s.apiRequestCounters api.name = some c :=
      fun api h => hready api (List.mem_cons_of_mem _ h)
    obtain ⟨a, k, hrun, hk, hmin, hearlier⟩ :=
      leastUsed_first_min s (second :: rest) [first] first 0 hrest hfirst rfl
        (by intro b hb; simp at hb; rw [hb])
        (by intro j b hj; exact absurd hj (Nat.not_lt_zero j))
    refine ⟨a, k, ?_, hk, hmin, hearlier⟩
    simp [selectNextApi, hs, hrun]

/-- Witness of C8: counts 3, 1, 1 for a, b, c. -/
theorem selectNextApi_least_used_witness :
    ∃ (a : Api) (k : Nat),
      selectNextApi leastUsedConfig 0 leastUsedState [apiA, apiB, apiC] =
        .ok (some a, leastUsedState) ∧
      [apiA, apiB, apiC][k]? = some a ∧
      (∀ b ∈ [apiA, apiB, apiC], countOf leastUsedState a ≤ countOf leastUsedState b) ∧
      (∀ j b, j < k → [apiA, apiB, apiC][j]? = some b →
        countOf leastUsedState a < countOf leastUsedState b) :=
  selectNextApi_least_used leastUsedConfig 0 leastUsedState [apiA, apiB, apiC] rfl
    (by simp)
    (by
      intro api hapi
      simp at hapi
      rcases hapi with h | h | h <;> subst h
      · exact ⟨_, rfl⟩
      · exact ⟨_, rfl⟩
      · exact ⟨_, rfl⟩)

/-- The provider chosen in the witness of C8 is b, the first of the two
with count 1. -/
theorem selectNextApi_least_used_example :
    selectNextApi leastUsedConfig 0 leastUsedState [apiA, apiB, apiC] =
      .ok (some apiB, leastUsedState) := by
  rfl

/-! ## Field mapping: theorems -/

theorem splitChars_no_sep (c : Char) :
    ∀ (l : List Char) (piece : List Char), piece ∈ splitChars c l → c ∉ piece := by
  intro l
  induction l with
  | nil =>
    intro piece h
    simp [splitChars] at h
    simp [h]
  | cons x xs ih =>
    intro piece h
    unfold splitChars at h
    by_cases hx : x = c
    · simp only [hx, if_true] at h
      rcases List.mem_cons.mp h with h | h
      · simp [h]
      · exact ih piece h
    · simp only [hx, if_false] at h
      cases hsplit : splitChars c xs with
      | nil =>
        simp only [hsplit] at h
        simp at h
        simp [h, Ne.symm hx]
      | cons first pieces =>
        simp only [hsplit] at h
        rcases List.mem_cons.mp h with h | h
        · have hfirst : c ∉ first := ih first (by simp [hsplit])
          simp [h, Ne.symm hx, hfirst]
        · exact ih piece (by simp [hsplit, h])

theorem jsTrim_no_sep (c : Char) (t : String) (h : c ∉ t.data) : c ∉ (jsTrim t).data := by
  intro hmem
  apply h
  simp only [jsTrim, List.mem_reverse] at hmem
  have h1 := List.dropWhile_subset isJsSpace hmem
  rw [List.mem_reverse] at h1
  exact List.dropWhile_subset isJsSpace h1

theorem getNestedValue_no_comma (obj : Value) (path : String) (h : ',' ∉ path.data) :
    getNestedValue obj path = dottedLookup obj path := by
  simp [getNestedValue, dottedLookup, h]

/-- The equation that the source text of `getNestedValue` states, with its
recursive call. -/
theorem getNestedValue_unfold (obj : Value) (path : String) :
    getNestedValue obj path =
      if path = "" then .undefined
      else if ',' ∈ path.data then
        .str (joinEmpty (((jsSplit ',' path).map
          (fun field => getNestedValue obj (jsTrim field))).filter truthy))
      else (jsSplit '.' path).foldl stepKey obj := by
  have hmap : (jsSplit ',' path).map (fun field => getNestedValue obj (jsTrim field)) =
      (jsSplit ',' path).map (fun field => dottedLookup obj (jsTrim field)) := by
    apply List.map_congr_left
    intro field hfield
    apply getNestedValue_no_comma
    apply jsTrim_no_sep
    simp only [jsSplit, List.mem_map] at hfield
    obtain ⟨piece, hpiece, rfl⟩ := hfield
    exact splitChars_no_sep ',' path.data piece hpiece
  rw [hmap]
  rfl

theorem joinEmpty_truthy :
    ∀ (values : List Value), (∀ v ∈ values, truthy v = true) →
      joinEmpty values = (values.map toJsString).foldr (fun a b => a ++ b) "" := by
  intro values
  induction values with
  | nil => intro _; rfl
  | cons x rest ih =>
    intro h
    have hx : truthy x = true := h x (List.mem_cons_self _ _)
    have hrest := ih (fun v hv => h v (List.mem_cons_of_mem _ hv))
    cases x <;> simp_all [joinEmpty, truthy]

theorem foldl_stepKey_undefined :
    ∀ (keys : List String), keys.foldl stepKey .undefined = .undefined := by
  intro keys
  induction keys with
  | nil => rfl
  | cons k rest ih =>
    simpa [List.foldl, stepKey, truthy, getProp, objGet] using ih

/-- C9 at a lookup that is the number 0: the value is neither empty nor
missing, so the concatenation the claim describes is "CA0"; the filter of
source line 113, which its comment introduces as removing `undefined`
values, removes every falsy value, and `getNestedValue` returns "CA". -/
theorem getNestedValue_zero_counterexample :
    ',' ∈ "region,code".data ∧
      dottedLookup regionZero "code" = .num 0 ∧
      specConcatLookup regionZero "region,code" = .str "CA0" ∧
      getNestedValue regionZero "region,code" = .str "CA" ∧
      getNestedValue regionZero "region,code" ≠ specConcatLookup regionZero "region,code" := by
  refine ⟨by decide, rfl, rfl, rfl, ?_⟩
  intro h
  have h1 : Value.str "CA" = Value.str "CA0" := h
  injection h1 with h2
  exact absurd h2 (by decide)

/-- What `getNestedValue` computes.  For a path with a comma: the
concatenation, in the order of the comma-separated sub-paths, of the string
forms of the dotted-path lookups of the trimmed sub-paths whose value is
truthy; every falsy lookup (missing, `null`, the empty string, 0, `false`)
is left out.  For a path without a comma: the plain dotted-path lookup,
which is `undefined` as soon as the lookup of a leading part of the segments
is `undefined`.  The function is total: no input makes it throw.  The
example of the specification, "region,city" over a response with region
"CA" and an empty city, yields "CA". -/
theorem getNestedValue_spec (obj : Value) (path : String) :
    (',' ∈ path.data →
        getNestedValue obj path =
          .str (((((jsSplit ',' path).map (fun field => dottedLookup obj (jsTrim field))).filter
            truthy).map toJsString).foldr (fun a b => a ++ b) "")) ∧
      (',' ∉ path.data →
        getNestedValue obj path = dottedLookup obj path ∧
          ∀ before after, jsSplit '.' path = before ++ after →
            before.foldl stepKey obj = .undefined → getNestedValue obj path = .undefined) ∧
      getNestedValue regionCity "region,city" = .str "CA" := by
  refine ⟨?_, ?_, rfl⟩
  · intro hcomma
    have hne : path ≠ "" := by
      intro h
      rw [h] at hcomma
      simp at hcomma
    rw [← joinEmpty_truthy]
    · simp [getNestedValue, hne, hcomma]
    · intro v hv
      exact (List.mem_filter.mp hv).2
  · intro hcomma
    refine ⟨getNestedValue_no_comma obj path hcomma, ?_⟩
    intro before after hsplit hbefore
    by_cases hne : path = ""
    · simp [getNestedValue, hne]
    · simp only [getNestedValue, hne, hcomma, if_false, hsplit, List.foldl_append, hbefore]
      exact foldl_stepKey_undefined after

/-- The `data` of the result in the witness of C10: the city is "CA", the
empty city name left out; `zip` is not in `response_fields`. -/
theorem safeQueryIpInfo_success_example :
    (buildResult demoConfig demoApi demoPayload).data =
      [("ip", .str "8.8.8.8"), ("country", .str "US"), ("city", .str "CA")] := by
  rfl

/-! ## Availability scans: what they change and what they keep -/

theorem findApi_some (cfg : Config) (name : String) (api : Api)
    (h : findApi cfg name = some api) : api ∈ cfg.upstream_apis ∧ api.name = name := by
  unfold findApi at h
  exact ⟨List.mem_of_find?_eq_some h, by simpa using List.find?_some h⟩

theorem ResetOnly.refl (cfg : Config) (s : State) : ResetOnly cfg s s :=
  ⟨rfl, rfl, fun _ => Or.inl rfl⟩

theorem ResetOnly.trans {cfg : Config} {s s1 s2 : State} (h1 : ResetOnly cfg s s1)
    (h2 : ResetOnly cfg s1 s2) : ResetOnly cfg s s2 := by
  refine ⟨h2.1.trans h1.1, h2.2.1.trans h1.2.1, ?_⟩
  intro name
  rcases h2.2.2 name with h | ⟨api, c, t, hfind, hc, hnew⟩
  · rw [h]
    exact h1.2.2 name
  · right
    rcases h1.2.2 name with h | ⟨api0, c0, t0, _, hc0, _⟩
    · exact ⟨api, c, t, hfind, by rw [← h]; exact hc, hnew⟩
    · exact ⟨api, c0, t, hfind, hc0, hnew⟩

theorem ResetOnly.keepsReady {cfg : Config} {s s1 : State} (h : ResetOnly cfg s s1)
    (hready : CountersReady cfg s) : CountersReady cfg s1 := by
  intro api hapi
  rcases h.2.2 api.name with h1 | ⟨g, c, t, _, _, hnew⟩
  · rw [h1]
    exact hready api hapi
  · exact ⟨_, hnew⟩

theorem ResetOnly.keepsOk {cfg : Config} {s s1 : State} (h : ResetOnly cfg s s1)
    (hok : StateOk cfg s) : StateOk cfg s1 :=
  ⟨h.keepsReady hok.1, by rw [h.2.1]; exact hok.2⟩

theorem ResetOnly.keepsUnder {cfg : Config} {s s1 : State} (h : ResetOnly cfg s s1)
    (name : String) (hunder : underLimit cfg s name = true) : underLimit cfg s1 name = true := by
  rcases h.2.2 name with h1 | ⟨api, c, t, hfind, hc, hnew⟩
  · simpa [underLimit, h1] using hunder
  · simp only [underLimit, hfind, hc, Bool.and_eq_true, decide_eq_true_eq] at hunder
    simp only [underLimit, hfind, hnew, Bool.and_eq_true, decide_eq_true_eq]
    refine ⟨hunder.1, ?_⟩
    have hnonneg : (0 : Int) ≤ (c.count : Int) := Int.ofNat_nonneg _
    exact lt_of_le_of_lt hnonneg hunder.2

theorem isApiAvailable_resetOnly (cfg : Config) (now : Nat) (s s1 : State) (name : String)
    (b : Bool) (h : isApiAvailable cfg now s name = .ok (b, s1)) : ResetOnly cfg s s1 := by
  unfold isApiAvailable at h
  cases hfind : findApi cfg name with
  | none =>
    simp only [hfind] at h
    injection h with h
    injection h with _ hs
    rw [← hs]
    exact ResetOnly.refl cfg s
  | some api =>
    simp only [hfind] at h
    by_cases hoff : api.enabled = false
    · simp only [hoff, if_true] at h
      injection h with h
      injection h with _ hs
      rw [← hs]
      exact ResetOnly.refl cfg s
    · simp only [hoff, if_false] at h
      cases hc : s.apiRequestCounters name with
      | none =>
        simp only [hc] at h
        exact Except.noConfusion h
      | some c =>
        simp only [hc] at h
        by_cases hexp : windowExpired api c now = true
        · simp only [hexp, if_true] at h
          injection h with h
          injection h with _ hs
          rw [← hs]
          refine ⟨?_, ?_, ?_⟩
          · simp [resetRequestCounter, hfind]
          · simp [resetRequestCounter, hfind]
          · intro other
            by_cases ho : other = name
            · right
              subst ho
              exact ⟨api, c, now, hfind, hc, by simp [resetRequestCounter, hfind, setKey]⟩
            · left
              simp [resetRequestCounter, hfind, setKey, ho]
        · simp only [hexp] at h
          injection h with h
          injection h with _ hs
          rw [← hs]
          exact ResetOnly.refl cfg s

theorem isApiAvailable_ok (cfg : Config) (now : Nat) (s : State) (name : String)
    (hready : CountersReady cfg s) :
    ∃ b s1, isApiAvailable cfg now s name = .ok (b, s1) := by
  unfold isApiAvailable
  cases hfind : findApi cfg name with
  | none => exact ⟨_, _, rfl⟩
  | some api =>
    obtain ⟨hmem, hname⟩ := findApi_some cfg name api hfind
    obtain ⟨c, hc⟩ := hready api hmem
    rw [hname] at hc
    simp only [hc]
    by_cases hoff : api.enabled = false
    · simp only [hoff, if_true]
      exact ⟨_, _, rfl⟩
    · simp only [hoff, if_false]
      by_cases hexp : windowExpired api c now = true
      · simp only [hexp, if_true]
        exact ⟨_, _, rfl⟩
      · simp only [hexp]
        exact ⟨_, _, rfl⟩

theorem isApiAvailable_underLimit (cfg : Config) (now : Nat) (s : State) (name : String)
    (hunder : underLimit cfg s name = true) :
    ∃ s1, isApiAvailable cfg now s name = .ok (true, s1) := by
  unfold underLimit at hunder
  unfold isApiAvailable
  cases hfind : findApi cfg name with
  | none => simp [hfind] at hunder
  | some api =>
    cases hc : s.apiRequestCounters name with
    | none => simp [hfind, hc] at hunder
    | some c =>
      simp only [hfind, hc, Bool.and_eq_true, decide_eq_true_eq] at hunder
      simp only [hunder.1]
      by_cases hexp : windowExpired api c now = true
      · simp only [hexp, if_true]
        exact ⟨_, rfl⟩
      · simp only [hexp]
        exact ⟨s, by simp [hunder.2]⟩

theorem filterAvailable_sound (cfg : Config) (now : Nat) :
    ∀ (l : List Api) (s s1 : State) (kept : List Api),
      filterAvailable cfg now s l = .ok (kept, s1) →
        ResetOnly cfg s s1 ∧ (∀ a ∈ kept, a ∈ l) ∧
          (∀ a ∈ l, underLimit cfg s a.name = true → a ∈ kept) := by
  intro l
  induction l with
  | nil =>
    intro s s1 kept h
    simp only [filterAvailable] at h
    injection h with h
    injection h with hk hs
    subst hk
    subst hs
    exact ⟨ResetOnly.refl cfg s, by simp, by simp⟩
  | cons api rest ih =>
    intro s s1 kept h
    simp only [filterAvailable] at h
    cases hfirst : isApiAvailable cfg now s api.name with
    | error e =>
      simp only [hfirst] at h
      exact Except.noConfusion h
    | ok pair =>
      obtain ⟨keep, sa⟩ := pair
      simp only [hfirst] at h
      have hstep := isApiAvailable_resetOnly cfg now s sa api.name keep hfirst
      cases hrest : filterAvailable cfg now sa rest with
      | error e =>
        simp only [hrest] at h
        exact Except.noConfusion h
      | ok pair2 =>
        obtain ⟨kept2, sb⟩ := pair2
        simp only [hrest] at h
        injection h with h
        injection h with hk hs
        subst hs
        obtain ⟨hreset, hsub, hkeeps⟩ := ih sa sb kept2 hrest
        refine ⟨hstep.trans hreset, ?_, ?_⟩
        · intro a ha
          rw [← hk] at ha
          by_cases hkeep : keep = true
          · simp only [hkeep, if_true] at ha
            rcases List.mem_cons.mp ha with ha | ha
            · simp [ha]
            · exact List.mem_cons_of_mem _ (hsub a ha)
          · simp only [hkeep] at ha
            exact List.mem_cons_of_mem _ (hsub a ha)
        · intro a ha hunder
          rw [← hk]
          rcases List.mem_cons.mp ha with ha | ha
          · subst ha
            obtain ⟨sx, hx⟩ := isApiAvailable_underLimit cfg now s a.name hunder
            rw [hx] at hfirst
            injection hfirst with hfirst
            injection hfirst with hkeep _
            simp [← hkeep]
          · have hin : a ∈ kept2 := hkeeps a ha (hstep.keepsUnder a.name hunder)
            by_cases hkeep : keep = true
            · simp [hkeep, hin]
            · simp [hkeep, hin]

theorem filterAvailable_ok (cfg : Config) (now : Nat) :
    ∀ (l : List Api) (s : State), CountersReady cfg s →
      ∃ kept s1, filterAvailable cfg now s l = .ok (kept, s1) := by
  intro l
  induction l with
  | nil => intro s _; exact ⟨_, _, rfl⟩
  | cons api rest ih =>
    intro s hready
    obtain ⟨keep, sa, hfirst⟩ := isApiAvailable_ok cfg now s api.name hready
    have hready1 : CountersReady cfg sa :=
      (isApiAvailable_resetOnly cfg now s sa api.name keep hfirst).keepsReady hready
    obtain ⟨kept2, sb, hrest⟩ := ih sa hready1
    exact ⟨if keep then api :: kept2 else kept2, sb, by simp [filterAvailable, hfirst, hrest]⟩

theorem getAvailableApis_ok (cfg : Config) (now : Nat) (s : State)
    (hready : CountersReady cfg s) :
    ∃ available s1, getAvailableApis cfg now s = .ok (available, s1) ∧ ResetOnly cfg s s1 ∧
      (∀ a ∈ available, a ∈ cfg.upstream_apis) ∧
      (∀ a ∈ cfg.upstream_apis, underLimit cfg s a.name = true → a ∈ available) := by
  obtain ⟨kept, s1, h⟩ := filterAvailable_ok cfg now cfg.upstream_apis s hready
  exact ⟨kept, s1, h, filterAvailable_sound cfg now cfg.upstream_apis s s1 kept h⟩

/-! ## Selector: membership and state -/

theorem leastUsed_mem (s : State) :
    ∀ (rest : List Api) (least a : Api), leastUsed s least rest = .ok a → a ∈ least :: rest := by
  intro rest
  induction rest with
  | nil =>
    intro least a h
    simp only [leastUsed] at h
    injection h with h
    simp [h]
  | cons current rest ih =>
    intro least a h
    simp only [leastUsed] at h
    cases hstep : leastStep s least current with
    | error e =>
      simp only [hstep] at h
      exact Except.noConfusion h
    | ok next =>
      simp only [hstep] at h
      have hnext : next = current ∨ next = least := by
        unfold leastStep at hstep
        cases hl : s.apiRequestCounters least.name with
        | none =>
          simp only [hl] at hstep
          exact Except.noConfusion hstep
        | some cl =>
          cases hc : s.apiRequestCounters current.name with
          | none =>
            simp only [hl, hc] at hstep
            exact Except.noConfusion hstep
          | some cc =>
            simp only [hl, hc] at hstep
            injection hstep with hstep
            by_cases hlt : cc.count < cl.count
            · left
              simp [hlt] at hstep
              exact hstep.symm
            · right
              simp [hlt] at hstep
              exact hstep.symm
      have hmem := ih next a h
      rcases List.mem_cons.mp hmem with hmem | hmem
      · rcases hnext with hn | hn
        · simp [hmem, hn]
        · simp [hmem, hn]
      · exact List.mem_cons_of_mem _ (List.mem_cons_of_mem _ hmem)

theorem elemAt_mem {α : Type} (xs : List α) (i : Int) (a : α) (h : elemAt xs i = some a) :
    a ∈ xs := by
  unfold elemAt at h
  by_cases hi : i < 0
  · simp [hi] at h
  · simp only [hi, if_false, List.get?_eq_getElem?] at h
    exact List.getElem?_mem h

theorem elemAt_some {α : Type} (xs : List α) (i : Int) (h0 : 0 ≤ i) (h1 : i < xs.length) :
    ∃ a, elemAt xs i = some a ∧ xs[i.toNat]? = some a := by
  have hlt : i.toNat < xs.length := (Int.toNat_lt h0).mpr h1
  refine ⟨xs[i.toNat], ?_, List.getElem?_eq_getElem hlt⟩
  simp [elemAt, not_lt.mpr h0, List.getElem?_eq_getElem hlt]

theorem selectNextApi_mem (cfg : Config) (draw : Nat) (s s1 : State) (l : List Api)
    (a : Api) (h : selectNextApi cfg draw s l = .ok (some a, s1)) : a ∈ l := by
  cases l with
  | nil => simp [selectNextApi] at h
  | cons first rest =>
    cases rest with
    | nil =>
      simp only [selectNextApi] at h
      injection h with h
      injection h with h _
      injection h with h
      simp [h]
    | cons second rest =>
      simp only [selectNextApi] at h
      by_cases hr : strategyOf cfg = "random"
      · simp only [hr, if_true, List.get?_eq_getElem?] at h
        injection h with h
        injection h with h _
        exact List.getElem?_mem h
      · simp only [hr, if_false] at h
        by_cases hl : strategyOf cfg = "least_used"
        · simp only [hl, if_true] at h
          cases hrun : leastUsed s first (second :: rest) with
          | error e =>
            simp only [hrun] at h
            exact Except.noConfusion h
          | ok least =>
            simp only [hrun] at h
            injection h with h
            injection h with h _
            injection h with h
            rw [← h]
            exact leastUsed_mem s (second :: rest) first least hrun
        · simp only [hl, if_false] at h
          injection h with h
          injection h with h _
          exact elemAt_mem _ _ a h

theorem untried_le (cfg : Config) (triedApis : List String) :
    untried cfg triedApis ≤ cfg.upstream_apis.length :=
  List.length_filter_le _ _

theorem untried_addTried_lt (cfg : Config) (triedApis : List String) (sel : Api)
    (hmem : sel ∈ cfg.upstream_apis) (hnew : sel.name ∉ triedApis) :
    untried cfg (addTried triedApis sel.name) < untried cfg triedApis := by
  have hsplit : cfg.upstream_apis.filter
        (fun api => !((addTried triedApis sel.name).contains api.name)) =
      (cfg.upstream_apis.filter (fun api => !(triedApis.contains api.name))).filter
        (fun api => decide (api.name ≠ sel.name)) := by
    rw [List.filter_filter]
    apply List.filter_congr
    intro api _
    by_cases h1 : api.name ∈ triedApis
    · simp [addTried, hnew, h1]
    · by_cases h2 : api.name = sel.name
      · simp [addTried, hnew, h1, h2]
      · simp [addTried, hnew, h1, h2]
  unfold untried
  rw [hsplit]
  apply List.length_filter_lt_length_iff_exists.mpr
  exact ⟨sel, by simp [hmem, hnew], by simp⟩

theorem attemptStep_next (cfg : Config) (w : World) (ip : String) (v v1 : LoopVars)
    (available : List Api) (h : attemptStep cfg w ip v available = .next v1) :
    ∃ sel, sel ∈ available ∧ v1.triedApis = addTried v.triedApis sel.name ∧
      v1.retryCount = v.retryCount := by
  unfold attemptStep at h
  by_cases hempty : available.isEmpty = true
  · simp [hempty] at h
  · simp only [hempty] at h
    cases hsel : selectNextApi cfg (w.draw v.errors.length) v.state available with
    | error e => simp [hsel] at h
    | ok pair =>
      obtain ⟨x, s1⟩ := pair
      cases x with
      | none => simp [hsel] at h
      | some sel =>
        refine ⟨sel, selectNextApi_mem cfg _ v.state s1 available sel hsel, ?_⟩
        simp only [hsel] at h
        cases hres : (safeQueryIpInfo cfg (w.get v.calls.length) v.now s1 ip sel).result with
        | ok r => simp [hres] at h
        | error e =>
          simp only [hres] at h
          cases hcatch : catchScan cfg v.retryCount
              (safeQueryIpInfo cfg (w.get v.calls.length) v.now s1 ip sel).now
              (safeQueryIpInfo cfg (w.get v.calls.length) v.now s1 ip sel).state with
          | error e2 => simp [hcatch] at h
          | ok s3 =>
            simp only [hcatch] at h
            injection h with h
            rw [← h]
            exact ⟨rfl, rfl⟩

theorem loopStep_next_measure (cfg : Config) (w : World) (ip : String) (v v1 : LoopVars)
    (h : loopStep cfg w ip v = .next v1) : loopMeasure cfg v1 < loopMeasure cfg v := by
  unfold loopStep at h
  by_cases hround : v.retryCount ≤ cfg.retry_count
  · simp only [hround, if_true] at h
    cases hscan : getAvailableApis cfg v.now v.state with
    | error e => simp [hscan] at h
    | ok pair =>
      obtain ⟨available, s1⟩ := pair
      simp only [hscan] at h
      obtain ⟨_, hsub, _⟩ :=
        filterAvailable_sound cfg v.now cfg.upstream_apis v.state s1 available hscan
      by_cases hempty : (available.filter
          (fun api => !(v.triedApis.contains api.name))).isEmpty = true
      · simp only [hempty, if_true] at h
        by_cases hless : v.retryCount < cfg.retry_count
        · simp only [hless, if_true] at h
          cases hscan2 : getAvailableApis cfg v.now s1 with
          | error e => simp [hscan2] at h
          | ok pair2 =>
            obtain ⟨again, s2⟩ := pair2
            simp only [hscan2] at h
            obtain ⟨sel, _, htried, hcount⟩ := attemptStep_next cfg w ip _ v1 again h
            have hle := untried_le cfg v1.triedApis
            simp only at hcount
            unfold loopMeasure
            rw [hcount]
            have hsucc : cfg.retry_count - v.retryCount =
                (cfg.retry_count - (v.retryCount + 1)) + 1 := by omega
            rw [hsucc, Nat.succ_mul]
            omega
        · simp [hless] at h
      · simp only [hempty] at h
        obtain ⟨sel, hsel, htried, hcount⟩ := attemptStep_next cfg w ip _ v1 _ h
        have hsel1 := List.mem_filter.mp hsel
        have hnew : sel.name ∉ v.triedApis := by
          simpa using hsel1.2
        have hlt := untried_addTried_lt cfg v.triedApis sel (hsub sel hsel1.1) hnew
        simp only at htried hcount
        unfold loopMeasure
        rw [hcount, htried]
        omega
  · simp [hround] at h

theorem retryLoop_total (cfg : Config) (w : World) (ip : String) :
    ∀ (fuel : Nat) (v : LoopVars), loopMeasure cfg v < fuel →
      ∃ o, retryLoop cfg w ip fuel v = some o := by
  intro fuel
  induction fuel with
  | zero =>
    intro v h
    exact absurd h (Nat.not_lt_zero _)
  | succ fuel ih =>
    intro v h
    simp only [retryLoop]
    cases hstep : loopStep cfg w ip v with
    | done o => exact ⟨o, rfl⟩
    | next v1 =>
      have hlt := loopStep_next_measure cfg w ip v v1 hstep
      exact ih v1 (by omega)

theorem loopMeasure_start (cfg : Config) (s : State) (now : Nat) :
    loopMeasure cfg
      { state := s, now := now, retryCount := 0, triedApis := [], lastError := none,
        calls := [], errors := [] } < loopFuel cfg := by
  have hle := untried_le cfg []
  unfold loopMeasure loopFuel
  simp only [Nat.sub_zero]
  rw [Nat.succ_mul]
  omega

/-- The model of `queryIpInfoWithRetry` always yields an outcome: the passes
of `loopFuel` suffice, whatever the upstream does. -/
theorem queryIpInfoWithRetry_total (cfg : Config) (w : World) (now : Nat) (s : State)
    (ip : String) : ∃ o, queryIpInfoWithRetry cfg w now s ip = some o := by
  unfold queryIpInfoWithRetry queryWithFuel
  cases hcache : getFromCache cfg now s ip with
  | mk cached s1 =>
    cases cached with
    | some data => exact ⟨_, rfl⟩
    | none =>
      simp only
      cases hscan : getAvailableApis cfg now s1 with
      | error e => exact ⟨_, rfl⟩
      | ok pair =>
        obtain ⟨available, s2⟩ := pair
        simp only
        by_cases hempty : available.isEmpty = true
        · simp only [hempty, if_true]
          exact ⟨_, rfl⟩
        · simp only [hempty]
          exact retryLoop_total cfg w ip (loopFuel cfg) _ (loopMeasure_start cfg s2 now)

/-! ## Lookup orchestrator: a lookup in which no GET succeeds -/

theorem incrementApiCounter_keeps (cfg : Config) (s : State) (name : String)
    (hok : StateOk cfg s) :
    StateOk cfg (incrementApiCounter s name) ∧
      (incrementApiCounter s name).ipCache = s.ipCache := by
  unfold incrementApiCounter
  cases hc : s.apiRequestCounters name with
  | none => exact ⟨hok, rfl⟩
  | some c =>
    refine ⟨⟨?_, hok.2⟩, rfl⟩
    intro api hapi
    by_cases hn : api.name = name
    · exact ⟨{ c with count := c.count + 1 }, by simp [setKey, hn]⟩
    · obtain ⟨c0, hc0⟩ := hok.1 api hapi
      exact ⟨c0, by simp [setKey, hn, hc0]⟩

theorem safeQueryIpInfo_keeps (cfg : Config) (reply : String → HttpReply) (now : Nat)
    (s : State) (ip : String) (apiConfig : Api) (hok : StateOk cfg s) :
    StateOk cfg (safeQueryIpInfo cfg reply now s ip apiConfig).state ∧
      (safeQueryIpInfo cfg reply now s ip apiConfig).state.ipCache = s.ipCache := by
  obtain ⟨b, s1, hav⟩ := isApiAvailable_ok cfg now s apiConfig.name hok.1
  have hreset := isApiAvailable_resetOnly cfg now s s1 apiConfig.name b hav
  have hok1 : StateOk cfg s1 := hreset.keepsOk hok
  unfold safeQueryIpInfo
  rw [hav]
  cases b with
  | false => exact ⟨hok1, hreset.1⟩
  | true =>
    have hinc := incrementApiCounter_keeps cfg s1 apiConfig.name hok1
    simp only
    cases (reply (requestUrl apiConfig ip)).outcome with
    | ok data => exact ⟨hinc.1, hinc.2.trans hreset.1⟩
    | error message => exact ⟨hinc.1, hinc.2.trans hreset.1⟩

theorem initCounters_some (now : Nat) :
    ∀ (l : List Api) (counters : String → Option Counter) (name : String),
      ((∃ c, counters name = some c ∧ c.count = 0) ∨ ∃ api ∈ l, api.name = name) →
        ∃ c, initCounters now counters l name = some c ∧ c.count = 0 := by
  intro l
  induction l with
  | nil =>
    intro counters name h
    rcases h with h | ⟨api, hapi, _⟩
    · exact h
    · exact absurd hapi (List.not_mem_nil _)
  | cons first rest ih =>
    intro counters name h
    simp only [initCounters]
    apply ih
    by_cases hn : name = first.name
    · left
      exact ⟨{ count := 0, windowStartTime := now, isAvailable := first.enabled },
        by simp [setKey, hn], rfl⟩
    · rcases h with ⟨c, hc, h0⟩ | ⟨api, hapi, hname⟩
      · left
        exact ⟨c, by simp [setKey, hn, hc], h0⟩
      · right
        rcases List.mem_cons.mp hapi with hfirst | hrest
        · rw [hfirst] at hname
          exact absurd hname.symm hn
        · exact ⟨api, hrest, hname⟩

/-- Module load leaves a state of the kind the theorems on lookups assume. -/
theorem initialState_ok (cfg : Config) (now : Nat) : StateOk cfg (initialState cfg now) := by
  refine ⟨?_, by simp [initialState]⟩
  intro api hapi
  obtain ⟨c, hc, _⟩ := initCounters_some now cfg.upstream_apis (fun _ => none) api.name
    (Or.inr ⟨api, hapi, rfl⟩)
  exact ⟨c, hc⟩

/-- The lookup of the witness of C5 issues one GET and fails with the error
built from the time-out of that GET. -/
theorem queryIpInfoWithRetry_all_fail_example :
    ∃ o, queryIpInfoWithRetry demoConfig failingWorld 1000 (initialState demoConfig 0)
        "1.1.1.1" = some o ∧
      o.result = .error (.error "查询失败: timeout of 5000ms exceeded" (some "ipapi")) ∧
      o.calls = ["ipapi"] :=
  ⟨_, rfl, rfl, rfl⟩

/-! ## Lookup orchestrator: fail-over within a round -/

theorem safeQueryIpInfo_ok (cfg : Config) (reply : String → HttpReply) (now : Nat)
    (s : State) (ip : String) (apiConfig : Api) (r : LookupResult)
    (h : (safeQueryIpInfo cfg reply now s ip apiConfig).result = .ok r) :
    r.source = apiConfig.name ∧
      (safeQueryIpInfo cfg reply now s ip apiConfig).dispatched = true := by
  unfold safeQueryIpInfo at h ⊢
  cases hav : isApiAvailable cfg now s apiConfig.name with
  | error e => simp [hav] at h
  | ok pair =>
    obtain ⟨b, s1⟩ := pair
    cases b with
    | false => simp [hav] at h
    | true =>
      simp only [hav] at h ⊢
      cases hout : (reply (requestUrl apiConfig ip)).outcome with
      | error message => simp [hout] at h
      | ok data =>
        simp only [hout] at h ⊢
        injection h with h
        rw [← h]
        exact ⟨rfl, trivial⟩

theorem filter_untried_nil (available : List Api) :
    available.filter (fun api => !(([] : List String).contains api.name)) = available := by
  simp

theorem attemptStep_next_calls (cfg : Config) (w : World) (ip : String) (v v1 : LoopVars)
    (available : List Api) (h : attemptStep cfg w ip v available = .next v1) :
    ∃ sel, sel ∈ available ∧ v1.triedApis = addTried v.triedApis sel.name ∧
      v1.retryCount = v.retryCount ∧
      (v1.calls = v.calls ∨ v1.calls = v.calls ++ [sel.name]) := by
  unfold attemptStep at h
  by_cases hempty : available.isEmpty = true
  · simp [hempty] at h
  · simp only [hempty] at h
    cases hsel : selectNextApi cfg (w.draw v.errors.length) v.state available with
    | error e => simp [hsel] at h
    | ok pair =>
      obtain ⟨x, s1⟩ := pair
      cases x with
      | none => simp [hsel] at h
      | some sel =>
        refine ⟨sel, selectNextApi_mem cfg _ v.state s1 available sel hsel, ?_⟩
        simp only [hsel] at h
        cases hres : (safeQueryIpInfo cfg (w.get v.calls.length) v.now s1 ip sel).result with
        | ok r => simp [hres] at h
        | error e =>
          simp only [hres] at h
          cases hcatch : catchScan cfg v.retryCount
              (safeQueryIpInfo cfg (w.get v.calls.length) v.now s1 ip sel).now
              (safeQueryIpInfo cfg (w.get v.calls.length) v.now s1 ip sel).state with
          | error e2 => simp [hcatch] at h
          | ok s3 =>
            simp only [hcatch] at h
            injection h with h
            rw [← h]
            refine ⟨rfl, rfl, ?_⟩
            by_cases hd : (safeQueryIpInfo cfg (w.get v.calls.length) v.now s1 ip
                sel).dispatched = true
            · right
              simp [hd]
            · left
              simp [hd]

/-- Within a round the loop only ever tries a provider whose name is not in
the tried set: a pass that goes round again without starting a new round
has picked such a provider, added its name to the set, and issued at most
the one GET to it. -/
theorem loopStep_same_round (cfg : Config) (w : World) (ip : String) (v v1 : LoopVars)
    (h : loopStep cfg w ip v = .next v1) (hround : v1.retryCount = v.retryCount) :
    ∃ sel : Api, sel.name ∉ v.triedApis ∧ v1.triedApis = v.triedApis ++ [sel.name] ∧
      (v1.calls = v.calls ∨ v1.calls = v.calls ++ [sel.name]) := by
  unfold loopStep at h
  by_cases hle : v.retryCount ≤ cfg.retry_count
  · simp only [hle, if_true] at h
    cases hscan : getAvailableApis cfg v.now v.state with
    | error e => simp [hscan] at h
    | ok pair =>
      obtain ⟨available, s1⟩ := pair
      simp only [hscan] at h
      by_cases hempty : (available.filter
          (fun api => !(v.triedApis.contains api.name))).isEmpty = true
      · simp only [hempty, if_true] at h
        by_cases hless : v.retryCount < cfg.retry_count
        · simp only [hless, if_true] at h
          cases hscan2 : getAvailableApis cfg v.now s1 with
          | error e => simp [hscan2] at h
          | ok pair2 =>
            obtain ⟨again, s2⟩ := pair2
            simp only [hscan2] at h
            obtain ⟨_, _, _, hcount, _⟩ := attemptStep_next_calls cfg w ip _ v1 again h
            simp only at hcount
            omega
        · simp [hless] at h
      · simp only [hempty] at h
        obtain ⟨sel, hsel, htried, _, hcalls⟩ := attemptStep_next_calls cfg w ip _ v1 _ h
        have hnew : sel.name ∉ v.triedApis := by
          simpa using (List.mem_filter.mp hsel).2
        refine ⟨sel, hnew, ?_, hcalls⟩
        rw [htried]
        simp [addTried, hnew]
  · simp [hle] at h

/-- C6: for an IP that `getFromCache` does not serve, if the GET to the
provider selected first fails and the provider selected next, among the
available providers not yet tried in the same round, answers its GET, then
`queryIpInfoWithRetry` returns the result of the second provider, whose
`source` is that provider's name, and stores it in the cache with the time
of its arrival; the two GETs of the lookup go to the first and then to the
second provider, which has another name, so the failed provider is called
exactly once.  In general a pass of the loop that stays in its round tries
a provider whose name is not in the tried set. -/
theorem queryIpInfoWithRetry_failover (cfg : Config) (w : World) (now : Nat) (s : State)
    (ip : String) (s0 s1 s2 s3 s5 s6 s7 : State) (av0 av1 av2 : List Api)
    (first second : Api) (a1 a2 : Attempt) (e1 : JsError) (r : LookupResult)
    (hmiss : getFromCache cfg now s ip = (none, s0))
    (hscan0 : getAvailableApis cfg now s0 = .ok (av0, s1)) (hav0 : av0 ≠ [])
    (hscan1 : getAvailableApis cfg now s1 = .ok (av1, s2))
    (hsel1 : selectNextApi cfg (w.draw 0) s2 av1 = .ok (some first, s3))
    (hcall1 : safeQueryIpInfo cfg (w.get 0) now s3 ip first = a1)
    (hsent1 : a1.dispatched = true) (hfail1 : a1.result = .error e1)
    (hcatch : catchScan cfg 0 a1.now a1.state = .ok s5)
    (hscan2 : getAvailableApis cfg a1.now s5 = .ok (av2, s6))
    (hsel2 : selectNextApi cfg (w.draw 1) s6
      (av2.filter (fun api => !([first.name].contains api.name))) = .ok (some second, s7))
    (hcall2 : safeQueryIpInfo cfg (w.get 1) a1.now s7 ip second = a2)
    (hok2 : a2.result = .ok r) :
    (∃ o, queryIpInfoWithRetry cfg w now s ip = some o ∧ o.result = .ok r ∧
        r.source = second.name ∧ second.name ≠ first.name ∧
        o.calls = [first.name, second.name] ∧ o.errors = [e1] ∧
        o.state.ipCache ip = some { data := r, timestamp := o.now } ∧ o.now = a2.now) ∧
      (∀ v v1, loopStep cfg w ip v = .next v1 → v1.retryCount = v.retryCount →
        ∃ sel : Api, sel.name ∉ v.triedApis ∧ v1.triedApis = v.triedApis ++ [sel.name] ∧
          (v1.calls = v.calls ∨ v1.calls = v.calls ++ [sel.name])) := by
  refine ⟨?_, loopStep_same_round cfg w ip⟩
  have hne0 : av0.isEmpty = false := by
    cases av0 with
    | nil => exact absurd rfl hav0
    | cons _ _ => rfl
  have hne1 : av1.isEmpty = false := by
    cases av1 with
    | nil => simp [selectNextApi] at hsel1
    | cons _ _ => rfl
  have hmem2 := selectNextApi_mem cfg _ s6 s7 _ second hsel2
  have hne2 : (av2.filter (fun api => !([first.name].contains api.name))).isEmpty = false := by
    cases hc : av2.filter (fun api => !([first.name].contains api.name)) with
    | nil =>
      rw [hc] at hmem2
      exact absurd hmem2 (List.not_mem_nil _)
    | cons _ _ => rfl
  have hdiff : second.name ≠ first.name := by
    simpa using (List.mem_filter.mp hmem2).2
  rw [← hcall2] at hok2
  obtain ⟨hsource, hsent2⟩ := safeQueryIpInfo_ok cfg (w.get 1) a1.now s7 ip second r hok2
  rw [hcall2] at hok2 hsent2
  obtain ⟨k, hk⟩ : ∃ k, loopFuel cfg = k + 1 + 1 :=
    ⟨(cfg.retry_count + 1) * (cfg.upstream_apis.length + 1) - 1, by
      have hpos : 0 < (cfg.retry_count + 1) * (cfg.upstream_apis.length + 1) :=
        Nat.mul_pos (Nat.succ_pos _) (Nat.succ_pos _)
      unfold loopFuel
      omega⟩
  have hstep1 : loopStep cfg w ip
      { state := s1, now := now, retryCount := 0, triedApis := [], lastError := none,
        calls := [], errors := [] } =
      .next { state := s5, now := a1.now, retryCount := 0, triedApis := [first.name],
              lastError := some e1, calls := [first.name], errors := [e1] } := by
    simp only [loopStep, Nat.zero_le, if_true, hscan1, filter_untried_nil, hne1,
      Bool.false_eq_true, if_false, attemptStep, List.length_nil, hsel1, hcall1, hfail1,
      hsent1, hcatch, addTried, List.not_mem_nil, List.nil_append]
  have hstep2 : loopStep cfg w ip
      { state := s5, now := a1.now, retryCount := 0, triedApis := [first.name],
        lastError := some e1, calls := [first.name], errors := [e1] } =
      .done { result := .ok r, state := saveToCache a2.now a2.state ip r, now := a2.now,
              calls := [first.name, second.name], errors := [e1] } := by
    simp only [loopStep, Nat.zero_le, if_true, hscan2, hne2, Bool.false_eq_true, if_false,
      attemptStep, List.length_singleton, hsel2, hcall2, hok2, hsent2, List.singleton_append]
  refine ⟨{ result := .ok r, state := saveToCache a2.now a2.state ip r, now := a2.now,
            calls := [first.name, second.name], errors := [e1] },
    ?_, rfl, hsource, hdiff, rfl, rfl, ?_, rfl⟩
  · simp only [queryIpInfoWithRetry, queryWithFuel, hmiss, hscan0, hne0, Bool.false_eq_true,
      if_false, hk, retryLoop, hstep1, hstep2]
  · simp [saveToCache, setKey]

/-- Witness of C6: providers a and b after module load; the GET to a is
refused, the GET to b succeeds. -/
theorem queryIpInfoWithRetry_failover_witness :
    (∃ o, queryIpInfoWithRetry twoConfig flakyWorld 1000 (initialState twoConfig 0)
          "9.9.9.9" = some o ∧
        o.result = .ok (buildResult twoConfig apiB (.obj [("ip", .str "9.9.9.9")])) ∧
        (buildResult twoConfig apiB (.obj [("ip", .str "9.9.9.9")])).source = apiB.name ∧
        apiB.name ≠ apiA.name ∧
        o.calls = [apiA.name, apiB.name] ∧
        o.errors = [.error "查询失败: connect ECONNREFUSED" (some "a")] ∧
        o.state.ipCache "9.9.9.9" =
          some { data := buildResult twoConfig apiB (.obj [("ip", .str "9.9.9.9")]),
                 timestamp := o.now } ∧
        o.now = (safeQueryIpInfo twoConfig (flakyWorld.get 1) 1040
          (incrementApiCounter { initialState twoConfig 0 with lastUsedApiIndex := 0 } "a")
          "9.9.9.9" apiB).now) ∧
      (∀ v v1, loopStep twoConfig flakyWorld "9.9.9.9" v = .next v1 →
        v1.retryCount = v.retryCount →
        ∃ sel : Api, sel.name ∉ v.triedApis ∧ v1.triedApis = v.triedApis ++ [sel.name] ∧
          (v1.calls = v.calls ∨ v1.calls = v.calls ++ [sel.name])) :=
  queryIpInfoWithRetry_failover twoConfig flakyWorld 1000 (initialState twoConfig 0) "9.9.9.9"
    (initialState twoConfig 0) (initialState twoConfig 0) (initialState twoConfig 0)
    { initialState twoConfig 0 with lastUsedApiIndex := 0 }
    (incrementApiCounter { initialState twoConfig 0 with lastUsedApiIndex := 0 } "a")
    (incrementApiCounter { initialState twoConfig 0 with lastUsedApiIndex := 0 } "a")
    (incrementApiCounter { initialState twoConfig 0 with lastUsedApiIndex := 0 } "a")
    [apiA, apiB] [apiA, apiB] [apiA, apiB] apiA apiB
    (safeQueryIpInfo twoConfig (flakyWorld.get 0) 1000
      { initialState twoConfig 0 with lastUsedApiIndex := 0 } "9.9.9.9" apiA)
    (safeQueryIpInfo twoConfig (flakyWorld.get 1) 1040
      (incrementApiCounter { initialState twoConfig 0 with lastUsedApiIndex := 0 } "a")
      "9.9.9.9" apiB)
    (.error "查询失败: connect ECONNREFUSED" (some "a"))
    (buildResult twoConfig apiB (.obj [("ip", .str "9.9.9.9")]))
    rfl rfl (by simp) rfl rfl rfl rfl rfl rfl rfl rfl rfl rfl

/-! ## Lookup orchestrator: round-robin rotation -/

/-- The providers that serve the four lookups of the witness of C7. -/
theorem round_robin_rotation_example :
    (lookupSeq rotationConfig (initialState rotationConfig 0) rotationRequests).map servedBy =
      [some "a", some "b", some "c", some "a"] := by
  rfl

/-! ## Selector: the cursor under round_robin -/

/-- C13, as stated, fails for a one-element candidate list: under
`round_robin`, from the cursor -1 that module load leaves, the call returns
the only candidate but the cursor stays -1, where the claim has it advance
to (-1 + 1) mod 1 = 0. -/
theorem selectNextApi_single_counterexample :
    strategyOf twoConfig = "round_robin" ∧
      (initialState twoConfig 0).lastUsedApiIndex = -1 ∧
      ∃ s1, selectNextApi twoConfig 0 (initialState twoConfig 0) [apiA] = .ok (some apiA, s1) ∧
        s1.lastUsedApiIndex = -1 ∧
        s1.lastUsedApiIndex ≠ ((-1 : Int) + 1) % (([apiA].length : Nat) : Int) :=
  ⟨rfl, rfl, initialState twoConfig 0, rfl, rfl, by decide⟩

/-- C13, amended: under `round_robin`, with the cursor at least -1, a call of
`selectNextApi` with a candidate list of length L ≥ 2 sets the cursor to
(cursor + 1) mod L, changes nothing else, and returns the candidate at the
new cursor position; a call with a one-element list returns that element and
leaves the state, cursor included, as it was. -/
theorem selectNextApi_cursor (cfg : Config) (draw : Nat) (s : State) (candidates : List Api)
    (hstrategy : strategyOf cfg = "round_robin") (hcursor : -1 ≤ s.lastUsedApiIndex) :
    (∀ only, candidates = [only] → selectNextApi cfg draw s candidates = .ok (some only, s)) ∧
      (2 ≤ candidates.length →
        ∃ a, selectNextApi cfg draw s candidates =
            .ok (some a, { s with
              lastUsedApiIndex := (s.lastUsedApiIndex + 1) % (candidates.length : Int) }) ∧
          candidates[((s.lastUsedApiIndex + 1) % (candidates.length : Int)).toNat]? =
            some a) := by
  have hnr : ¬ (strategyOf cfg = "random") := by
    rw [hstrategy]
    decide
  have hnl : ¬ (strategyOf cfg = "least_used") := by
    rw [hstrategy]
    decide
  constructor
  · intro only honly
    rw [honly]
    rfl
  · intro hlen
    have h0 : (0 : Int) ≤ s.lastUsedApiIndex + 1 := by omega
    have hpos : (0 : Int) < (candidates.length : Int) := by omega
    have hmod : Int.tmod (s.lastUsedApiIndex + 1) (candidates.length : Int) =
        (s.lastUsedApiIndex + 1) % (candidates.length : Int) :=
      Int.tmod_eq_emod h0 (le_of_lt hpos)
    obtain ⟨a, ha, hidx⟩ := elemAt_some candidates
      ((s.lastUsedApiIndex + 1) % (candidates.length : Int))
      (Int.emod_nonneg _ (ne_of_gt hpos)) (Int.emod_lt_of_pos _ hpos)
    refine ⟨a, ?_, hidx⟩
    cases candidates with
    | nil => simp at hlen
    | cons first rest =>
      cases rest with
      | nil => simp at hlen
      | cons second rest =>
        simp only [selectNextApi, hnr, hnl, if_false, hmod, ha]

/-- Witness of C13, amended: three candidates, the cursor at 2. -/
theorem selectNextApi_cursor_witness :
    (∀ only, [apiA, apiB, apiC] = [only] →
        selectNextApi rotationConfig 0 { initialState rotationConfig 0 with lastUsedApiIndex := 2 }
          [apiA, apiB, apiC] =
          .ok (some only, { initialState rotationConfig 0 with lastUsedApiIndex := 2 })) ∧
      (2 ≤ [apiA, apiB, apiC].length →
        ∃ a, selectNextApi rotationConfig 0
            { initialState rotationConfig 0 with lastUsedApiIndex := 2 } [apiA, apiB, apiC] =
            .ok (some a, { initialState rotationConfig 0 with
              lastUsedApiIndex := ((2 : Int) + 1) % (([apiA, apiB, apiC].length : Nat) : Int) }) ∧
          [apiA, apiB, apiC][(((2 : Int) + 1) %
            (([apiA, apiB, apiC].length : Nat) : Int)).toNat]? = some a) :=
  selectNextApi_cursor rotationConfig 0 { initialState rotationConfig 0 with lastUsedApiIndex := 2 }
    [apiA, apiB, apiC] rfl (by decide)

/-- The choice in the witness of C13: from the cursor 2 the call wraps round
to the provider a at index 0. -/
theorem selectNextApi_cursor_example :
    ∃ s1, selectNextApi rotationConfig 0
        { initialState rotationConfig 0 with lastUsedApiIndex := 2 } [apiA, apiB, apiC] =
        .ok (some apiA, s1) ∧ s1.lastUsedApiIndex = 0 :=
  ⟨_, rfl, rfl⟩

/-! ## Module load: no check of the provider descriptions -/

theorem ResetOnly.count_same_or_zero {cfg : Config} {s s1 : State} (h : ResetOnly cfg s s1)
    (name : String) (c c1 : Counter) (hc : s.apiRequestCounters name = some c)
    (hc1 : s1.apiRequestCounters name = some c1) : c1.count = c.count ∨ c1.count = 0 := by
  rcases h.2.2 name with hsame | ⟨api, c0, t, _, _, hnew⟩
  · left
    rw [hsame, hc] at hc1
    injection hc1 with hc1
    rw [hc1]
  · right
    rw [hnew] at hc1
    injection hc1 with hc1
    rw [← hc1]

theorem ResetOnly.keepsWithin {cfg : Config} {s s1 : State} (h : ResetOnly cfg s s1)
    (name : String) (api : Api) (hfind : findApi cfg name = some api)
    (hmax : 1 ≤ api.max_requests) (hin : WithinLimit cfg name s) : WithinLimit cfg name s1 := by
  obtain ⟨api0, c, hfind0, hc, hle⟩ := hin
  rcases h.2.2 name with hsame | ⟨g, c0, t, _, _, hnew⟩
  · exact ⟨api0, c, hfind0, by rw [hsame]; exact hc, hle⟩
  · refine ⟨api, _, hfind, hnew, ?_⟩
    show ((0 : Nat) : Int) ≤ api.max_requests
    omega

theorem isApiAvailable_true_count (cfg : Config) (now : Nat) (s s1 : State) (name : String)
    (api : Api) (hfind : findApi cfg name = some api)
    (h : isApiAvailable cfg now s name = .ok (true, s1)) :
    ∃ c1, s1.apiRequestCounters name = some c1 ∧
      (c1.count = 0 ∨ (c1.count : Int) < api.max_requests) := by
  unfold isApiAvailable at h
  simp only [hfind] at h
  by_cases hoff : api.enabled = false
  · simp [hoff] at h
  · simp only [hoff, if_false] at h
    cases hc : s.apiRequestCounters name with
    | none => simp [hc] at h
    | some c =>
      simp only [hc] at h
      by_cases hexp : windowExpired api c now = true
      · simp only [hexp, if_true] at h
        injection h with h
        injection h with _ hs
        rw [← hs]
        exact ⟨{ count := 0, windowStartTime := now, isAvailable := api.enabled },
          by simp [resetRequestCounter, hfind, setKey], Or.inl rfl⟩
      · simp only [hexp] at h
        injection h with h
        injection h with hb hs
        rw [← hs]
        exact ⟨c, hc, Or.inr (by simpa using hb)⟩

theorem safeQueryIpInfo_dispatched (cfg : Config) (reply : String → HttpReply) (now : Nat)
    (s : State) (ip : String) (apiConfig : Api) :
    ((safeQueryIpInfo cfg reply now s ip apiConfig).dispatched = true →
        ∃ s1, isApiAvailable cfg now s apiConfig.name = .ok (true, s1) ∧
          (safeQueryIpInfo cfg reply now s ip apiConfig).state =
            incrementApiCounter s1 apiConfig.name) ∧
      ((safeQueryIpInfo cfg reply now s ip apiConfig).dispatched = false →
        ResetOnly cfg s (safeQueryIpInfo cfg reply now s ip apiConfig).state) := by
  unfold safeQueryIpInfo
  cases hav : isApiAvailable cfg now s apiConfig.name with
  | error e =>
    refine ⟨fun h => ?_, fun _ => ResetOnly.refl cfg s⟩
    simp at h
  | ok pair =>
    obtain ⟨b, s1⟩ := pair
    cases b with
    | false =>
      refine ⟨fun h => ?_, fun _ => isApiAvailable_resetOnly cfg now s s1 apiConfig.name false hav⟩
      simp at h
    | true =>
      simp only
      cases (reply (requestUrl apiConfig ip)).outcome with
      | ok data =>
        refine ⟨fun _ => ⟨s1, rfl, rfl⟩, fun h => ?_⟩
        simp at h
      | error message =>
        refine ⟨fun _ => ⟨s1, rfl, rfl⟩, fun h => ?_⟩
        simp at h

theorem incrementApiCounter_within (cfg : Config) (s : State) (name queried : String)
    (api : Api) (hfind : findApi cfg name = some api) (hmax : 1 ≤ api.max_requests)
    (hin : WithinLimit cfg name s)
    (hroom : queried = name → ∃ c, s.apiRequestCounters name = some c ∧
      (c.count = 0 ∨ (c.count : Int) < api.max_requests)) :
    WithinLimit cfg name (incrementApiCounter s queried) := by
  by_cases hq : queried = name
  · obtain ⟨c, hc, hcount⟩ := hroom hq
    subst hq
    refine ⟨api, { c with count := c.count + 1 }, hfind, by simp [incrementApiCounter, hc, setKey],
      ?_⟩
    show ((c.count + 1 : Nat) : Int) ≤ api.max_requests
    rcases hcount with h0 | hlt
    · rw [h0]
      simpa using hmax
    · push_cast
      omega
  · obtain ⟨api0, c, hfind0, hc, hle⟩ := hin
    refine ⟨api0, c, hfind0, ?_, hle⟩
    unfold incrementApiCounter
    cases s.apiRequestCounters queried with
    | none => exact hc
    | some cq => simp [setKey, Ne.symm hq, hc]

theorem runOp_within (cfg : Config) (name : String) (api : Api)
    (hfind : findApi cfg name = some api) (hmax : 1 ≤ api.max_requests) (s : State)
    (op : RateOp) (hin : WithinLimit cfg name s) : WithinLimit cfg name (runOp cfg s op) := by
  cases op with
  | check other now =>
    simp only [runOp]
    cases h : isApiAvailable cfg now s other with
    | error e => exact hin
    | ok pair =>
      obtain ⟨b, s1⟩ := pair
      exact (isApiAvailable_resetOnly cfg now s s1 other b h).keepsWithin name api hfind hmax hin
  | scan now =>
    simp only [runOp]
    cases h : getAvailableApis cfg now s with
    | error e => exact hin
    | ok pair =>
      obtain ⟨l, s1⟩ := pair
      exact (filterAvailable_sound cfg now cfg.upstream_apis s s1 l h).1.keepsWithin name api
        hfind hmax hin
  | query ip apiConfig reply now =>
    simp only [runOp]
    obtain ⟨hsent, hnot⟩ := safeQueryIpInfo_dispatched cfg reply now s ip apiConfig
    cases hd : (safeQueryIpInfo cfg reply now s ip apiConfig).dispatched with
    | false => exact (hnot hd).keepsWithin name api hfind hmax hin
    | true =>
      obtain ⟨s1, hav, hstate⟩ := hsent hd
      rw [hstate]
      have hin1 : WithinLimit cfg name s1 :=
        (isApiAvailable_resetOnly cfg now s s1 apiConfig.name true hav).keepsWithin name api
          hfind hmax hin
      apply incrementApiCounter_within cfg s1 name apiConfig.name api hfind hmax hin1
      intro hq
      rw [hq] at hav
      exact isApiAvailable_true_count cfg now s s1 name api hfind hav

theorem runOps_within (cfg : Config) (name : String) (api : Api)
    (hfind : findApi cfg name = some api) (hmax : 1 ≤ api.max_requests) :
    ∀ (ops : List RateOp) (s : State), WithinLimit cfg name s →
      WithinLimit cfg name (runOps cfg s ops) := by
  intro ops
  induction ops with
  | nil => intro s h; exact h
  | cons op rest ih =>
    intro s h
    exact ih (runOp cfg s op) (runOp_within cfg name api hfind hmax s op h)

theorem resetsCounter_congr (cfg : Config) (now : Nat) (s s1 : State) (name : String)
    (h : s1.apiRequestCounters name = s.apiRequestCounters name) :
    resetsCounter cfg now s1 name = resetsCounter cfg now s name := by
  simp [resetsCounter, h]

/-- What a call of `isApiAvailable` does to the counter of `name`: it puts
it back to 0 when the call is for that name and the reset test holds, and
leaves it alone otherwise. -/
theorem isApiAvailable_counter (cfg : Config) (now : Nat) (s s1 : State) (other name : String)
    (b : Bool) (h : isApiAvailable cfg now s other = .ok (b, s1)) :
    ((other = name ∧ resetsCounter cfg now s name = true) ∧
        ∃ c1, s1.apiRequestCounters name = some c1 ∧ c1.count = 0) ∨
      (¬ (other = name ∧ resetsCounter cfg now s name = true) ∧
        s1.apiRequestCounters name = s.apiRequestCounters name) := by
  unfold isApiAvailable at h
  cases hfind : findApi cfg other with
  | none =>
    simp only [hfind] at h
    injection h with h
    injection h with _ hs
    right
    refine ⟨?_, by rw [← hs]⟩
    rintro ⟨ho, hr⟩
    subst ho
    simp [resetsCounter, hfind] at hr
  | some api =>
    simp only [hfind] at h
    by_cases hoff : api.enabled = false
    · simp only [hoff, if_true] at h
      injection h with h
      injection h with _ hs
      right
      refine ⟨?_, by rw [← hs]⟩
      rintro ⟨ho, hr⟩
      subst ho
      cases hc : s.apiRequestCounters other <;> simp [resetsCounter, hfind, hc, hoff] at hr
    · simp only [hoff, if_false] at h
      cases hc : s.apiRequestCounters other with
      | none => simp [hc] at h
      | some c =>
        simp only [hc] at h
        by_cases hexp : windowExpired api c now = true
        · simp only [hexp, if_true] at h
          injection h with h
          injection h with _ hs
          rw [← hs]
          by_cases ho : other = name
          · left
            subst ho
            refine ⟨⟨rfl, ?_⟩, { count := 0, windowStartTime := now, isAvailable := api.enabled },
              by simp [resetRequestCounter, hfind, setKey], rfl⟩
            simpa [resetsCounter, hfind, hc, hexp] using hoff
          · right
            refine ⟨fun hboth => ho hboth.1, ?_⟩
            simp [resetRequestCounter, hfind, setKey, Ne.symm ho]
        · simp only [hexp] at h
          injection h with h
          injection h with _ hs
          right
          refine ⟨?_, by rw [← hs]⟩
          rintro ⟨ho, hr⟩
          subst ho
          simp [resetsCounter, hfind, hc, hexp] at hr

theorem filterAvailable_counter (cfg : Config) (now : Nat) (name : String) :
    ∀ (l : List Api) (s s1 : State) (kept : List Api),
      filterAvailable cfg now s l = .ok (kept, s1) →
        ((l.any (fun api => decide (api.name = name)) = true ∧
              resetsCounter cfg now s name = true) ∧
            ∃ c1, s1.apiRequestCounters name = some c1 ∧ c1.count = 0) ∨
          (¬ (l.any (fun api => decide (api.name = name)) = true ∧
              resetsCounter cfg now s name = true) ∧
            s1.apiRequestCounters name = s.apiRequestCounters name) := by
  intro l
  induction l with
  | nil =>
    intro s s1 kept h
    simp only [filterAvailable] at h
    injection h with h
    injection h with _ hs
    right
    exact ⟨by simp, by rw [← hs]⟩
  | cons first rest ih =>
    intro s s1 kept h
    simp only [filterAvailable] at h
    cases hfirst : isApiAvailable cfg now s first.name with
    | error e => simp [hfirst] at h
    | ok pair =>
      obtain ⟨keep, sa⟩ := pair
      simp only [hfirst] at h
      cases hrest : filterAvailable cfg now sa rest with
      | error e => simp [hrest] at h
      | ok pair2 =>
        obtain ⟨kept2, sb⟩ := pair2
        simp only [hrest] at h
        injection h with h
        injection h with _ hs
        subst hs
        rcases isApiAvailable_counter cfg now s sa first.name name keep hfirst with
          ⟨⟨hname, hreset⟩, ca, hca, hzero⟩ | ⟨hnot, hsame⟩
        · left
          refine ⟨⟨by simp [hname], hreset⟩, ?_⟩
          rcases ih sa sb kept2 hrest with ⟨_, hc1⟩ | ⟨_, hkeep⟩
          · exact hc1
          · exact ⟨ca, by rw [hkeep]; exact hca, hzero⟩
        · have hcongr := resetsCounter_congr cfg now s sa name hsame
          rcases ih sa sb kept2 hrest with ⟨⟨hany, hreset⟩, hc1⟩ | ⟨hnone, hkeep⟩
          · left
            exact ⟨⟨by simp only [List.any_cons, hany, Bool.or_true], by rw [← hcongr]; exact hreset⟩,
              hc1⟩
          · right
            refine ⟨?_, by rw [hkeep, hsame]⟩
            rintro ⟨hany, hreset⟩
            simp only [List.any_cons, Bool.or_eq_true, decide_eq_true_eq] at hany
            rcases hany with hfirstname | hrestany
            · exact hnot ⟨hfirstname, hreset⟩
            · exact hnone ⟨hrestany, by rw [hcongr]; exact hreset⟩

theorem safeQueryIpInfo_cases (cfg : Config) (reply : String → HttpReply) (now : Nat)
    (s s1 : State) (ip : String) (apiConfig : Api) (b : Bool)
    (hav : isApiAvailable cfg now s apiConfig.name = .ok (b, s1)) :
    (safeQueryIpInfo cfg reply now s ip apiConfig).dispatched = b ∧
      (safeQueryIpInfo cfg reply now s ip apiConfig).state =
        if b then incrementApiCounter s1 apiConfig.name else s1 := by
  unfold safeQueryIpInfo
  rw [hav]
  cases b with
  | false => exact ⟨rfl, rfl⟩
  | true =>
    simp only
    cases (reply (requestUrl apiConfig ip)).outcome <;> exact ⟨rfl, rfl⟩

theorem incrementApiCounter_count (s : State) (queried name : String) (c : Counter)
    (hc : s.apiRequestCounters name = some c) :
    ∃ c1, (incrementApiCounter s queried).apiRequestCounters name = some c1 ∧
      c1.count = c.count + (if queried = name then 1 else 0) := by
  by_cases hq : queried = name
  · subst hq
    exact ⟨{ c with count := c.count + 1 }, by simp [incrementApiCounter, hc, setKey], by simp⟩
  · refine ⟨c, ?_, by simp [hq]⟩
    unfold incrementApiCounter
    cases s.apiRequestCounters queried with
    | none => exact hc
    | some cq => simp [setKey, Ne.symm hq, hc]

/-- One call changes the count of `name` as its two events say: back to 0 on
a reset, one more for a GET sent. -/
theorem runOp_count (cfg : Config) (name : String) (s : State) (op : RateOp) (c : Counter)
    (hready : CountersReady cfg s) (hc : s.apiRequestCounters name = some c) :
    ∃ c1, (runOp cfg s op).apiRequestCounters name = some c1 ∧
      c1.count = (if opResets cfg name s op then 0 else c.count) +
        (if opSends cfg name s op then 1 else 0) := by
  cases op with
  | check other now =>
    obtain ⟨b, s1, hav⟩ := isApiAvailable_ok cfg now s other hready
    simp only [runOp, hav, opResets, opSends, Bool.false_eq_true, if_false, Nat.add_zero]
    rcases isApiAvailable_counter cfg now s s1 other name b hav with
      ⟨⟨ho, hr⟩, c1, hc1, hzero⟩ | ⟨hnot, hsame⟩
    · exact ⟨c1, hc1, by simp [ho, hr, hzero]⟩
    · refine ⟨c, by rw [hsame, hc], ?_⟩
      have hfalse : (decide (other = name) && resetsCounter cfg now s name) = false := by
        by_cases ho : other = name
        · have hr : resetsCounter cfg now s name = false := by
            cases hres : resetsCounter cfg now s name with
            | false => rfl
            | true => exact absurd ⟨ho, hres⟩ hnot
          simp [hr]
        · simp [ho]
      simp [hfalse]
  | scan now =>
    obtain ⟨l, s1, hscan, _⟩ := getAvailableApis_ok cfg now s hready
    simp only [runOp, hscan, opResets, opSends, Bool.false_eq_true, if_false, Nat.add_zero]
    rcases filterAvailable_counter cfg now name cfg.upstream_apis s s1 l hscan with
      ⟨⟨hany, hr⟩, c1, hc1, hzero⟩ | ⟨hnot, hsame⟩
    · exact ⟨c1, hc1, by simp only [hany, hr, Bool.and_self, if_true, hzero]⟩
    · refine ⟨c, by rw [hsame, hc], ?_⟩
      have hfalse : (cfg.upstream_apis.any (fun api => decide (api.name = name)) &&
          resetsCounter cfg now s name) = false := by
        cases hany : cfg.upstream_apis.any (fun api => decide (api.name = name)) with
        | false => rfl
        | true =>
          cases hres : resetsCounter cfg now s name with
          | false => rfl
          | true => exact absurd ⟨hany, hres⟩ hnot
      simp [hfalse]
  | query ip apiConfig reply now =>
    obtain ⟨b, s1, hav⟩ := isApiAvailable_ok cfg now s apiConfig.name hready
    obtain ⟨hsent, hstate⟩ := safeQueryIpInfo_cases cfg reply now s s1 ip apiConfig b hav
    simp only [runOp, opResets, opSends, hsent, hstate]
    have hmid : ∃ cm, s1.apiRequestCounters name = some cm ∧
        cm.count = if (decide (apiConfig.name = name) && resetsCounter cfg now s name) = true
          then 0 else c.count := by
      rcases isApiAvailable_counter cfg now s s1 apiConfig.name name b hav with
        ⟨⟨ho, hr⟩, c1, hc1, hzero⟩ | ⟨hnot, hsame⟩
      · exact ⟨c1, hc1, by simp [ho, hr, hzero]⟩
      · refine ⟨c, by rw [hsame, hc], ?_⟩
        have hfalse : (decide (apiConfig.name = name) && resetsCounter cfg now s name) = false := by
          by_cases ho : apiConfig.name = name
          · have hr : resetsCounter cfg now s name = false := by
              cases hres : resetsCounter cfg now s name with
              | false => rfl
              | true => exact absurd ⟨ho, hres⟩ hnot
            simp [hr]
          · simp [ho]
        simp [hfalse]
    obtain ⟨cm, hcm, hcount⟩ := hmid
    cases b with
    | false =>
      refine ⟨cm, by simpa using hcm, ?_⟩
      simp [hcount]
    | true =>
      obtain ⟨c1, hc1, hone⟩ := incrementApiCounter_count s1 apiConfig.name name cm hcm
      refine ⟨c1, by simpa using hc1, ?_⟩
      rw [hone, hcount]
      by_cases ho : apiConfig.name = name <;> simp [ho]

theorem runOp_stateOk (cfg : Config) (s : State) (op : RateOp) (hok : StateOk cfg s) :
    StateOk cfg (runOp cfg s op) := by
  cases op with
  | check other now =>
    simp only [runOp]
    cases h : isApiAvailable cfg now s other with
    | error e => exact hok
    | ok pair =>
      obtain ⟨b, s1⟩ := pair
      exact (isApiAvailable_resetOnly cfg now s s1 other b h).keepsOk hok
  | scan now =>
    simp only [runOp]
    cases h : getAvailableApis cfg now s with
    | error e => exact hok
    | ok pair =>
      obtain ⟨l, s1⟩ := pair
      exact (filterAvailable_sound cfg now cfg.upstream_apis s s1 l h).1.keepsOk hok
  | query ip apiConfig reply now =>
    exact (safeQueryIpInfo_keeps cfg reply now s ip apiConfig hok).1

theorem runOps_count (cfg : Config) (name : String) :
    ∀ (ops : List RateOp) (s : State) (c : Counter), StateOk cfg s →
      s.apiRequestCounters name = some c →
      ∃ c1, (runOps cfg s ops).apiRequestCounters name = some c1 ∧
        c1.count = sentSinceReset cfg name s c.count ops := by
  intro ops
  induction ops with
  | nil =>
    intro s c _ hc
    exact ⟨c, hc, rfl⟩
  | cons op rest ih =>
    intro s c hok hc
    obtain ⟨cm, hcm, hcount⟩ := runOp_count cfg name s op c hok.1 hc
    obtain ⟨c1, hc1, hfinal⟩ := ih (runOp cfg s op) cm (runOp_stateOk cfg s op hok) hcm
    refine ⟨c1, hc1, ?_⟩
    rw [hfinal, hcount]
    rfl

/-- C15: for the provider registered under a name, with `max_requests` at
least 1, after any sequence of calls of `isApiAvailable`, `getAvailableApis`
and `safeQueryIpInfo` made from the state module load leaves, at any times,
the count of the provider is between 0 and `max_requests`, and it is the
number of GETs sent to the provider since its counter was last put back to
0.  A GET is only sent by `safeQueryIpInfo`, after its own call of
`isApiAvailable` has answered true, and the increment is made on the state
that call leaves. -/
theorem count_within_limit (cfg : Config) (t0 : Nat) (ops : List RateOp) (name : String)
    (api : Api) (hfind : findApi cfg name = some api) (hmax : 1 ≤ api.max_requests) :
    (∃ c, (runOps cfg (initialState cfg t0) ops).apiRequestCounters name = some c ∧
        0 ≤ c.count ∧ (c.count : Int) ≤ api.max_requests ∧
        c.count = sentSinceReset cfg name (initialState cfg t0) 0 ops) ∧
      (∀ (s : State) (reply : String → HttpReply) (now : Nat) (ip : String) (apiConfig : Api),
        (safeQueryIpInfo cfg reply now s ip apiConfig).dispatched = true →
          ∃ s1, isApiAvailable cfg now s apiConfig.name = .ok (true, s1) ∧
            (safeQueryIpInfo cfg reply now s ip apiConfig).state =
              incrementApiCounter s1 apiConfig.name) := by
  obtain ⟨hmem, hname⟩ := findApi_some cfg name api hfind
  obtain ⟨c0, hc0, hzero⟩ := initCounters_some t0 cfg.upstream_apis (fun _ => none) name
    (Or.inr ⟨api, hmem, hname⟩)
  have hstart : WithinLimit cfg name (initialState cfg t0) :=
    ⟨api, c0, hfind, hc0, by rw [hzero]; simpa using le_trans (by decide : (0 : Int) ≤ 1) hmax⟩
  obtain ⟨api1, c, hfind1, hc, hle⟩ :=
    runOps_within cfg name api hfind hmax ops (initialState cfg t0) hstart
  rw [hfind] at hfind1
  injection hfind1 with hfind1
  subst hfind1
  obtain ⟨c1, hc1, hcount⟩ :=
    runOps_count cfg name ops (initialState cfg t0) c0 (initialState_ok cfg t0) hc0
  rw [hc] at hc1
  injection hc1 with hc1
  subst hc1
  rw [hzero] at hcount
  refine ⟨⟨c, hc, Nat.zero_le _, hle, hcount⟩, ?_⟩
  intro s reply now ip apiConfig hsent
  exact (safeQueryIpInfo_dispatched cfg reply now s ip apiConfig).1 hsent

/-- Witness of C15: the calls `demoOps` on `demoApi`. -/
theorem count_within_limit_witness :
    (∃ c, (runOps demoConfig (initialState demoConfig 0) demoOps).apiRequestCounters "ipapi" =
          some c ∧
        0 ≤ c.count ∧ (c.count : Int) ≤ demoApi.max_requests ∧
        c.count = sentSinceReset demoConfig "ipapi" (initialState demoConfig 0) 0 demoOps) ∧
      (∀ (s : State) (reply : String → HttpReply) (now : Nat) (ip : String) (apiConfig : Api),
        (safeQueryIpInfo demoConfig reply now s ip apiConfig).dispatched = true →
          ∃ s1, isApiAvailable demoConfig now s apiConfig.name = .ok (true, s1) ∧
            (safeQueryIpInfo demoConfig reply now s ip apiConfig).state =
              incrementApiCounter s1 apiConfig.name) :=
  count_within_limit demoConfig 0 demoOps "ipapi" demoApi rfl (by decide)

/-- The calls of the witness of C15: the second lookup of the first window
is refused, so one GET is sent in each window and the count ends at 1. -/
theorem count_within_limit_example :
    (runOps demoConfig (initialState demoConfig 0) demoOps).apiRequestCounters "ipapi" =
        some { count := 1, windowStartTime := 70000, isAvailable := true } ∧
      (runOps demoConfig (initialState demoConfig 0) (demoOps.take 4)).apiRequestCounters
          "ipapi" = some { count := 1, windowStartTime := 0, isAvailable := true } ∧
      sentSinceReset demoConfig "ipapi" (initialState demoConfig 0) 0 demoOps = 1 :=
  ⟨rfl, rfl, rfl⟩

/-! ## Retry loop: the number of attempts -/

theorem attemptsOf_error (o : Outcome) (e : JsError) (h : o.result = .error e) :
    attemptsOf o = o.errors.length := by
  simp [attemptsOf, h]

theorem attemptsOf_le (o : Outcome) : attemptsOf o ≤ o.errors.length + 1 := by
  unfold attemptsOf
  cases o.result with
  | error e => simp
  | ok r =>
    by_cases hc : o.calls.isEmpty = true
    · simp [hc]
    · simp [hc]

/-- One run of the second half of the loop body: if it goes round again it
has caught one more error and tried one more provider of this round; if it
leaves the loop, it has made at most one attempt, and only with a provider
that was still untried. -/
theorem attemptStep_budget (cfg : Config) (w : World) (ip : String) (v : LoopVars)
    (available : List Api)
    (hsub : ∀ a ∈ available, a ∈ cfg.upstream_apis ∧ a.name ∉ v.triedApis)
    (hcalls : v.calls.length ≤ v.errors.length) :
    (∀ v1, attemptStep cfg w ip v available = .next v1 →
        v1.errors.length = v.errors.length + 1 ∧ v1.retryCount = v.retryCount ∧
        untried cfg v1.triedApis < untried cfg v.triedApis ∧
        v1.calls.length ≤ v1.errors.length) ∧
      (∀ o, attemptStep cfg w ip v available = .done o →
        attemptsOf o ≤ v.errors.length + untried cfg v.triedApis ∧
        o.calls.length ≤ v.errors.length + untried cfg v.triedApis) := by
  unfold attemptStep
  by_cases hempty : available.isEmpty = true
  · simp only [hempty, if_true]
    refine ⟨fun v1 h => by simp at h, fun o h => ?_⟩
    injection h with h
    rw [← h]
    exact ⟨by simp [attemptsOf, afterLoop, throwOut],
      by simp only [afterLoop, throwOut]; omega⟩
  · simp only [hempty]
    cases hsel : selectNextApi cfg (w.draw v.errors.length) v.state available with
    | error e =>
      refine ⟨fun v1 h => by simp at h, fun o h => ?_⟩
      simp only at h
      injection h with h
      rw [← h]
      exact ⟨by simp [attemptsOf, throwOut],
        by simp only [throwOut]; omega⟩
    | ok pair =>
      obtain ⟨x, s1⟩ := pair
      cases x with
      | none =>
        refine ⟨fun v1 h => by simp at h, fun o h => ?_⟩
        simp only at h
        injection h with h
        rw [← h]
        exact ⟨by simp [attemptsOf, afterLoop, throwOut],
          by simp only [afterLoop, throwOut]; omega⟩
      | some sel =>
        have hmem := selectNextApi_mem cfg _ v.state s1 available sel hsel
        have hlt := untried_addTried_lt cfg v.triedApis sel (hsub sel hmem).1 (hsub sel hmem).2
        have hcalls1 : (if (safeQueryIpInfo cfg (w.get v.calls.length) v.now s1 ip
              sel).dispatched = true
            then v.calls ++ [sel.name] else v.calls).length ≤ v.errors.length + 1 := by
          by_cases hd : (safeQueryIpInfo cfg (w.get v.calls.length) v.now s1 ip
              sel).dispatched = true
          · simp only [hd, if_true, List.length_append, List.length_singleton]
            omega
          · rw [if_neg hd]
            omega
        simp only
        cases hres : (safeQueryIpInfo cfg (w.get v.calls.length) v.now s1 ip sel).result with
        | ok r =>
          refine ⟨fun v1 h => by simp at h, fun o h => ?_⟩
          simp only at h
          injection h with h
          have hle := attemptsOf_le o
          rw [← h] at hle ⊢
          simp only at hle ⊢
          constructor <;> omega
        | error e =>
          simp only
          cases hcatch : catchScan cfg v.retryCount
              (safeQueryIpInfo cfg (w.get v.calls.length) v.now s1 ip sel).now
              (safeQueryIpInfo cfg (w.get v.calls.length) v.now s1 ip sel).state with
          | error e2 =>
            refine ⟨fun v1 h => by simp at h, fun o h => ?_⟩
            simp only at h
            injection h with h
            rw [← h]
            refine ⟨?_, ?_⟩
            · rw [attemptsOf_error _ _ rfl]
              simp only [throwOut, List.length_append, List.length_singleton]
              omega
            · simp only [throwOut]
              omega
          | ok s3 =>
            refine ⟨fun v1 h => ?_, fun o h => by simp at h⟩
            simp only at h
            injection h with h
            rw [← h]
            refine ⟨by simp, rfl, hlt, ?_⟩
            simp only [List.length_append, List.length_singleton]
            exact hcalls1

/-- One pass through the loop does not raise the sum of the attempts made
and the attempts still possible; a pass that leaves the loop has made no
more attempts than that sum allowed. -/
theorem loopStep_budget (cfg : Config) (w : World) (ip : String) (v : LoopVars)
    (hcalls : v.calls.length ≤ v.errors.length) :
    (∀ v1, loopStep cfg w ip v = .next v1 →
        v1.errors.length + attemptsLeft cfg v1 ≤ v.errors.length + attemptsLeft cfg v ∧
        v1.calls.length ≤ v1.errors.length) ∧
      (∀ o, loopStep cfg w ip v = .done o →
        attemptsOf o ≤ v.errors.length + attemptsLeft cfg v ∧
        o.calls.length ≤ v.errors.length + attemptsLeft cfg v) := by
  have hquiet : ∀ (s1 : State),
      attemptsOf (afterLoop v s1) ≤ v.errors.length + attemptsLeft cfg v ∧
        (afterLoop v s1).calls.length ≤ v.errors.length + attemptsLeft cfg v := by
    intro s1
    exact ⟨by simp [attemptsOf, afterLoop, throwOut], by simp only [afterLoop, throwOut]; omega⟩
  have hthrow : ∀ (s1 : State) (e : JsError),
      attemptsOf (throwOut v s1 e) ≤ v.errors.length + attemptsLeft cfg v ∧
        (throwOut v s1 e).calls.length ≤ v.errors.length + attemptsLeft cfg v := by
    intro s1 e
    exact ⟨by simp [attemptsOf, throwOut], by simp only [throwOut]; omega⟩
  unfold loopStep
  by_cases hround : v.retryCount ≤ cfg.retry_count
  · simp only [hround, if_true]
    cases hscan : getAvailableApis cfg v.now v.state with
    | error e =>
      refine ⟨fun v1 h => by simp at h, fun o h => ?_⟩
      simp only at h
      injection h with h
      rw [← h]
      exact hthrow _ _
    | ok pair =>
      obtain ⟨available, s1⟩ := pair
      simp only
      obtain ⟨_, hsub, _⟩ :=
        filterAvailable_sound cfg v.now cfg.upstream_apis v.state s1 available hscan
      by_cases hempty : (available.filter
          (fun api => !(v.triedApis.contains api.name))).isEmpty = true
      · simp only [hempty, if_true]
        by_cases hless : v.retryCount < cfg.retry_count
        · simp only [hless, if_true]
          cases hscan2 : getAvailableApis cfg v.now s1 with
          | error e =>
            refine ⟨fun v1 h => by simp at h, fun o h => ?_⟩
            simp only at h
            injection h with h
            rw [← h]
            exact hthrow _ _
          | ok pair2 =>
            obtain ⟨again, s2⟩ := pair2
            simp only
            obtain ⟨_, hsub2, _⟩ :=
              filterAvailable_sound cfg v.now cfg.upstream_apis s1 s2 again hscan2
            obtain ⟨hnext, hdone⟩ := attemptStep_budget cfg w ip
              { v with state := s2, triedApis := [], retryCount := v.retryCount + 1,
                       now := v.now + 100 + w.lag (v.retryCount + 1) } again
              (fun a ha => ⟨hsub2 a ha, List.not_mem_nil _⟩) hcalls
            have hcap := untried_le cfg []
            have hsucc : cfg.retry_count - v.retryCount =
                (cfg.retry_count - (v.retryCount + 1)) + 1 := by omega
            have hleft : attemptsLeft cfg v =
                (cfg.retry_count - (v.retryCount + 1)) * cfg.upstream_apis.length +
                  cfg.upstream_apis.length + untried cfg v.triedApis := by
              unfold attemptsLeft
              rw [hsucc, Nat.succ_mul]
            refine ⟨fun v1 h => ?_, fun o h => ?_⟩
            · obtain ⟨herr, hcount, hlt, hc1⟩ := hnext v1 h
              simp only at herr hcount hlt
              refine ⟨?_, hc1⟩
              rw [hleft]
              unfold attemptsLeft
              rw [hcount, herr]
              omega
            · obtain ⟨hatt, hcl⟩ := hdone o h
              simp only at hatt hcl
              rw [hleft]
              constructor <;> omega
        · simp only [hless, if_false]
          refine ⟨fun v1 h => by simp at h, fun o h => ?_⟩
          injection h with h
          rw [← h]
          exact hquiet _
      · simp only [hempty]
        obtain ⟨hnext, hdone⟩ := attemptStep_budget cfg w ip { v with state := s1 }
          (available.filter (fun api => !(v.triedApis.contains api.name)))
          (fun a ha => ⟨hsub a (List.mem_filter.mp ha).1, by
            simpa using (List.mem_filter.mp ha).2⟩) hcalls
        refine ⟨fun v1 h => ?_, fun o h => ?_⟩
        · obtain ⟨herr, hcount, hlt, hc1⟩ := hnext v1 h
          simp only at herr hcount hlt
          refine ⟨?_, hc1⟩
          unfold attemptsLeft
          rw [hcount, herr]
          omega
        · obtain ⟨hatt, hcl⟩ := hdone o h
          simp only at hatt hcl
          unfold attemptsLeft
          constructor <;> omega
  · simp only [hround, if_false]
    refine ⟨fun v1 h => by simp at h, fun o h => ?_⟩
    injection h with h
    rw [← h]
    exact hquiet _

theorem retryLoop_budget (cfg : Config) (w : World) (ip : String) :
    ∀ (fuel : Nat) (v : LoopVars) (o : Outcome), v.calls.length ≤ v.errors.length →
      retryLoop cfg w ip fuel v = some o →
        attemptsOf o ≤ v.errors.length + attemptsLeft cfg v ∧
          o.calls.length ≤ v.errors.length + attemptsLeft cfg v := by
  intro fuel
  induction fuel with
  | zero =>
    intro v o _ h
    simp [retryLoop] at h
  | succ fuel ih =>
    intro v o hcalls h
    simp only [retryLoop] at h
    obtain ⟨hnext, hdone⟩ := loopStep_budget cfg w ip v hcalls
    cases hstep : loopStep cfg w ip v with
    | done o1 =>
      simp only [hstep] at h
      injection h with h
      subst h
      exact hdone o1 hstep
    | next v1 =>
      simp only [hstep] at h
      obtain ⟨hle, hc1⟩ := hnext v1 hstep
      obtain ⟨h1, h2⟩ := ih v1 o hc1 h
      constructor <;> omega

/-- A pass of the loop that goes round again has either stayed in its round
and added to the tried set a provider that was not in it, or started the
next round. -/
theorem loopStep_progress (cfg : Config) (w : World) (ip : String) (v v1 : LoopVars)
    (h : loopStep cfg w ip v = .next v1) :
    (v1.retryCount = v.retryCount ∧
        ∃ sel : Api, sel.name ∉ v.triedApis ∧ v1.triedApis = v.triedApis ++ [sel.name]) ∨
      (v1.retryCount = v.retryCount + 1 ∧ v.retryCount < cfg.retry_count ∧
        ∃ sel : Api, v1.triedApis = [sel.name]) := by
  by_cases hsame : v1.retryCount = v.retryCount
  · left
    obtain ⟨sel, hnew, htried, _⟩ := loopStep_same_round cfg w ip v v1 h hsame
    exact ⟨hsame, sel, hnew, htried⟩
  · right
    unfold loopStep at h
    by_cases hle : v.retryCount ≤ cfg.retry_count
    · simp only [hle, if_true] at h
      cases hscan : getAvailableApis cfg v.now v.state with
      | error e => simp [hscan] at h
      | ok pair =>
        obtain ⟨available, s1⟩ := pair
        simp only [hscan] at h
        by_cases hempty : (available.filter
            (fun api => !(v.triedApis.contains api.name))).isEmpty = true
        · simp only [hempty, if_true] at h
          by_cases hless : v.retryCount < cfg.retry_count
          · simp only [hless, if_true] at h
            cases hscan2 : getAvailableApis cfg v.now s1 with
            | error e => simp [hscan2] at h
            | ok pair2 =>
              obtain ⟨again, s2⟩ := pair2
              simp only [hscan2] at h
              obtain ⟨sel, _, htried, hcount⟩ := attemptStep_next cfg w ip _ v1 again h
              simp only at htried hcount
              exact ⟨hcount, hless, sel, by simpa [addTried] using htried⟩
          · simp [hless] at h
        · simp only [hempty] at h
          obtain ⟨_, _, _, hcount⟩ := attemptStep_next cfg w ip _ v1 _ h
          exact absurd hcount hsame
    · simp [hle] at h

/-- C14: whatever the upstream does, the retry loop of
`queryIpInfoWithRetry` comes to an end, and one lookup runs
`safeQueryIpInfo` at most (R+1)*N times for N registered providers and
`retry_count` R, so it sends at most that many GETs.  Each pass of the loop
either leaves the loop (return, break or throw), or stays in its round and
adds to the tried set a provider that was not in it, or starts the next
round. -/
theorem queryIpInfoWithRetry_bounded (cfg : Config) (w : World) (now : Nat) (s : State)
    (ip : String) :
    (∃ o, queryIpInfoWithRetry cfg w now s ip = some o ∧
        attemptsOf o ≤ (cfg.retry_count + 1) * cfg.upstream_apis.length ∧
        o.calls.length ≤ (cfg.retry_count + 1) * cfg.upstream_apis.length) ∧
      (∀ v, (∃ o, loopStep cfg w ip v = .done o) ∨
        ∃ v1, loopStep cfg w ip v = .next v1 ∧
          ((v1.retryCount = v.retryCount ∧
              ∃ sel : Api, sel.name ∉ v.triedApis ∧
                v1.triedApis = v.triedApis ++ [sel.name]) ∨
            (v1.retryCount = v.retryCount + 1 ∧ v.retryCount < cfg.retry_count ∧
              ∃ sel : Api, v1.triedApis = [sel.name]))) := by
  constructor
  · obtain ⟨o, ho⟩ := queryIpInfoWithRetry_total cfg w now s ip
    refine ⟨o, ho, ?_⟩
    unfold queryIpInfoWithRetry queryWithFuel at ho
    cases hcache : getFromCache cfg now s ip with
    | mk cached s1 =>
      rw [hcache] at ho
      cases cached with
      | some data =>
        simp only at ho
        injection ho with ho
        rw [← ho]
        simp [attemptsOf]
      | none =>
        simp only at ho
        cases hscan : getAvailableApis cfg now s1 with
        | error e =>
          simp only [hscan] at ho
          injection ho with ho
          rw [← ho]
          simp [attemptsOf]
        | ok pair =>
          obtain ⟨available, s2⟩ := pair
          simp only [hscan] at ho
          by_cases hempty : available.isEmpty = true
          · simp only [hempty, if_true] at ho
            injection ho with ho
            rw [← ho]
            simp [attemptsOf]
          · simp only [hempty] at ho
            have hbudget := retryLoop_budget cfg w ip (loopFuel cfg) _ o (by simp) ho
            have hcap := untried_le cfg []
            have hstart : attemptsLeft cfg
                { state := s2, now := now, retryCount := 0, triedApis := [], lastError := none,
                  calls := [], errors := [] } ≤
                (cfg.retry_count + 1) * cfg.upstream_apis.length := by
              unfold attemptsLeft
              simp only [Nat.sub_zero]
              rw [Nat.succ_mul]
              omega
            simp only [List.length_nil, Nat.zero_add] at hbudget
            constructor <;> omega
  · intro v
    cases hstep : loopStep cfg w ip v with
    | done o => exact Or.inl ⟨o, rfl⟩
    | next v1 => exact Or.inr ⟨v1, rfl, loopStep_progress cfg w ip v v1 hstep⟩

/-! ## Client address: theorems -/

/-- The address of `proxiedRequest`: the forwarded-for header has priority
1, so its first entry is returned although real-ip is listed first. -/
theorem getClientIp_spec_example :
    getClientIp (.prioritized demoHeaders) proxiedRequest = "203.0.113.7" ∧
      Server.getClientIp (some (.prioritized demoHeaders)) proxiedRequest = "203.0.113.7" ∧
      (sortByPriority demoHeaders).map IpHeader.name = ["X-Forwarded-For", "X-Real-IP"] :=
  ⟨rfl, rfl, rfl⟩

/-- The two functions named `getClientIp` part ways when no configured
header yields an address: with only a `cf-connecting-ip` header configured,
the one of `src/api/ip/index.js` returns the remote address, the one of
`src/index.js` goes on to the forwarded-for header, which is not
configured. -/
theorem getClientIp_fallbacks_differ :
    getClientIp (.prioritized [{ name := "CF-Connecting-IP", priority := 1 }]) proxiedRequest =
        "127.0.0.1" ∧
      Server.getClientIp (some (.prioritized [{ name := "CF-Connecting-IP", priority := 1 }]))
        proxiedRequest = "203.0.113.7" :=
  ⟨rfl, rfl⟩

/-- The bound of C14 is reached: with 2 providers and `retry_count` 1, a
lookup in which every GET fails makes (1+1)*2 = 4 attempts: a and b in the
first round, b and a in the second. -/
theorem queryIpInfoWithRetry_bounded_example :
    ∃ o, queryIpInfoWithRetry twoConfig failingWorld 1000 (initialState twoConfig 0)
        "9.9.9.9" = some o ∧
      attemptsOf o = 4 ∧ o.calls = ["a", "b", "b", "a"] ∧
      (twoConfig.retry_count + 1) * twoConfig.upstream_apis.length = 4 :=
  ⟨_, rfl, rfl, rfl, rfl⟩

end IpApi
